import Mathlib

/-!
# CHIP-8 interpreter: a shallow embedding of `chip8.h` / `chip8.c`

The machine state `Chip8` is the C struct of `chip8.h`.  Arrays are total maps
from an index to a cell; the C code indexes them without any bounds check, so
the embedded functions perform none either.  In C the arrays are adjacent
fields of one struct, and an index outside its array reaches whatever the
memory layout puts there; the maps do not model that.  The embedded functions
therefore describe the program on the calls whose indices all lie inside their
arrays (`fetch_in_bounds`, `exec_in_bounds`), and every statement below about
what a call computes is made on such calls.  Fixed-width fields are natural
numbers, the width is re-imposed with an explicit `%` wherever the C code
stores a value that may not fit, and `WF` collects the ranges of the C types.
-/

namespace C8

/-! ## Constants of `chip8.h` -/

abbrev MEMORY_SIZE : Nat := 4096
abbrev NUM_REGISTERS : Nat := 16
abbrev STACK_SIZE : Nat := 16
abbrev DISPLAY_WIDTH : Nat := 64
abbrev DISPLAY_HEIGHT : Nat := 32
abbrev DISPLAY_SIZE : Nat := DISPLAY_WIDTH * DISPLAY_HEIGHT
abbrev PROGRAM_START : Nat := 0x200
abbrev FONT_START : Nat := 0x50

/-- The struct `Chip8` of `chip8.h`; every array is a map from index to cell. -/
structure Chip8 where
  memory : Nat → Nat
  V : Nat → Nat
  I : Nat
  PC : Nat
  delay_timer : Nat
  sound_timer : Nat
  stack : Nat → Nat
  SP : Nat
  display : Nat → Nat
  draw_flag : Bool
  keypad : Nat → Nat

/-- Array store `a[i] = v`. -/
def upd (a : Nat → Nat) (i v : Nat) : Nat → Nat :=
  fun j => if j = i then v else a j

/-- Conversion of a C `int` to `uint8_t`. -/
def u8 (v : Int) : Nat := (v % 256).toNat

/-- The ranges of the C field types: `uint8_t`, `uint16_t` and `uint32_t` cells. -/
structure WF (s : Chip8) : Prop where
  memory : ∀ a, s.memory a < 256
  V : ∀ i, s.V i < 256
  I : s.I < 65536
  PC : s.PC < 65536
  delay_timer : s.delay_timer < 256
  sound_timer : s.sound_timer < 256
  stack : ∀ i, s.stack i < 65536
  SP : s.SP < 256
  display : ∀ i, s.display i < 4294967296
  keypad : ∀ i, s.keypad i < 256

/-- The table `fontset[80]` of `chip8.c`. -/
def fontset : List Nat :=
  [0xF0, 0x90, 0x90, 0x90, 0xF0,
   0x20, 0x60, 0x20, 0x20, 0x70,
   0xF0, 0x10, 0xF0, 0x80, 0xF0,
   0xF0, 0x10, 0xF0, 0x10, 0xF0,
   0x90, 0x90, 0xF0, 0x10, 0x10,
   0xF0, 0x80, 0xF0, 0x10, 0xF0,
   0xF0, 0x80, 0xF0, 0x90, 0xF0,
   0xF0, 0x10, 0x20, 0x40, 0x40,
   0xF0, 0x90, 0xF0, 0x90, 0xF0,
   0xF0, 0x90, 0xF0, 0x10, 0xF0,
   0xF0, 0x90, 0xF0, 0x90, 0x90,
   0xE0, 0x90, 0xE0, 0x90, 0xE0,
   0xF0, 0x80, 0x80, 0x80, 0xF0,
   0xE0, 0x90, 0x90, 0x90, 0xE0,
   0xF0, 0x80, 0xF0, 0x80, 0xF0,
   0xF0, 0x80, 0xF0, 0x80, 0x80]

/-- The state after `memset(chip8, 0, sizeof(Chip8))`. -/
def zeroed : Chip8 :=
  { memory := fun _ => 0, V := fun _ => 0, I := 0, PC := 0,
    delay_timer := 0, sound_timer := 0, stack := fun _ => 0, SP := 0,
    display := fun _ => 0, draw_flag := false, keypad := fun _ => 0 }

/-- One pass of the font loop of `chip8_init`: `memory[FONT_START + i] = fontset[i]`. -/
def load_font_byte (chip8 : Chip8) (i : Nat) : Chip8 :=
  { chip8 with memory := upd chip8.memory (FONT_START + i) (fontset.getD i 0) }

/-- The function `chip8_init`: the struct is zeroed, whatever it held, the font
is copied to `FONT_START` and `PC` is set to `PROGRAM_START`.  Seeding the
generator of `rand` touches no field. -/
def chip8_init (_chip8 : Chip8) : Chip8 :=
  let c := (List.range 80).foldl load_font_byte zeroed
  { c with PC := PROGRAM_START }

/-- The function `chip8_reset`. -/
def chip8_reset (chip8 : Chip8) : Chip8 :=
  { chip8 with
    V := fun i => if i < NUM_REGISTERS then 0 else chip8.V i
    stack := fun i => if i < STACK_SIZE then 0 else chip8.stack i
    display := fun i => if i < DISPLAY_SIZE then 0 else chip8.display i
    keypad := fun i => if i < 16 then 0 else chip8.keypad i
    I := 0
    PC := PROGRAM_START
    SP := 0
    delay_timer := 0
    sound_timer := 0
    draw_flag := false }

/-- The function `chip8_fetch_opcode`: `(memory[PC] << 8) | memory[PC + 1]`,
returned as a `uint16_t`.  It only reads the state. -/
def chip8_fetch_opcode (chip8 : Chip8) : Nat :=
  ((chip8.memory chip8.PC <<< 8) ||| chip8.memory (chip8.PC + 1)) % 65536

/-- Body of the column loop of `DXYN` for one `col`. -/
def draw_col (sprite_byte x_pos y_pos row : Nat) (chip8 : Chip8) (col : Nat) : Chip8 :=
  if sprite_byte &&& (0x80 >>> col) ≠ 0 then
    let pixel_x := (x_pos + col) % DISPLAY_WIDTH
    let pixel_y := (y_pos + row) % DISPLAY_HEIGHT
    let idx := pixel_y * DISPLAY_WIDTH + pixel_x
    let c1 : Chip8 :=
      if chip8.display idx = 0xFFFFFFFF then { chip8 with V := upd chip8.V 0xF 1 } else chip8
    { c1 with display := upd c1.display idx (c1.display idx ^^^ 0xFFFFFFFF) }
  else chip8

/-- Body of the row loop of `DXYN` for one `row`. -/
def draw_row (x_pos y_pos : Nat) (chip8 : Chip8) (row : Nat) : Chip8 :=
  let sprite_byte := chip8.memory (chip8.I + row)
  (List.range 8).foldl (draw_col sprite_byte x_pos y_pos row) chip8

/-- The case `0xD000` of `chip8_execute`: draw a sprite of `n` rows. -/
def draw_sprite (chip8 : Chip8) (x y n : Nat) : Chip8 :=
  let x_pos := chip8.V x % DISPLAY_WIDTH
  let y_pos := chip8.V y % DISPLAY_HEIGHT
  let c0 : Chip8 := { chip8 with V := upd chip8.V 0xF 0 }
  let c1 := (List.range n).foldl (draw_row x_pos y_pos) c0
  { c1 with draw_flag := true }

/-- Body of the loop of `FX55`: `memory[I + i] = V[i]`. -/
def store_reg (chip8 : Chip8) (i : Nat) : Chip8 :=
  { chip8 with memory := upd chip8.memory (chip8.I + i) (chip8.V i) }

/-- Body of the loop of `FX65`: `V[i] = memory[I + i]`. -/
def load_reg (chip8 : Chip8) (i : Nat) : Chip8 :=
  { chip8 with V := upd chip8.V i (chip8.memory (chip8.I + i)) }

/-- The function `chip8_execute`.  `rnd` is the value `rand()` returns when
`CXNN` calls it.  The pair built by the dispatch is the state and
`pc_increment`. -/
def chip8_execute (chip8 : Chip8) (opcode : Nat) (rnd : Nat) : Chip8 :=
  let x := (opcode &&& 0x0F00) >>> 8
  let y := (opcode &&& 0x00F0) >>> 4
  let n := opcode &&& 0x000F
  let kk := opcode &&& 0x00FF
  let nnn := opcode &&& 0x0FFF
  let r : Chip8 × Nat :=
    if opcode &&& 0xF000 = 0x0000 then
      if opcode &&& 0x00FF = 0x00E0 then
        ({ chip8 with
           display := fun i => if i < DISPLAY_SIZE then 0 else chip8.display i
           draw_flag := true }, 2)
      else if opcode &&& 0x00FF = 0x00EE then
        let sp := u8 ((chip8.SP : Int) - 1)
        ({ chip8 with SP := sp, PC := chip8.stack sp }, 0)
      else (chip8, 2)
    else if opcode &&& 0xF000 = 0x1000 then
      ({ chip8 with PC := nnn }, 0)
    else if opcode &&& 0xF000 = 0x2000 then
      ({ chip8 with
         stack := upd chip8.stack chip8.SP ((chip8.PC + 2) % 65536)
         SP := (chip8.SP + 1) % 256
         PC := nnn }, 0)
    else if opcode &&& 0xF000 = 0x3000 then
      (chip8, if chip8.V x = kk then 4 else 2)
    else if opcode &&& 0xF000 = 0x4000 then
      (chip8, if chip8.V x ≠ kk then 4 else 2)
    else if opcode &&& 0xF000 = 0x5000 then
      (chip8, if chip8.V x = chip8.V y then 4 else 2)
    else if opcode &&& 0xF000 = 0x6000 then
      ({ chip8 with V := upd chip8.V x kk }, 2)
    else if opcode &&& 0xF000 = 0x7000 then
      ({ chip8 with V := upd chip8.V x ((chip8.V x + kk) % 256) }, 2)
    else if opcode &&& 0xF000 = 0x8000 then
      if n = 0x0 then
        ({ chip8 with V := upd chip8.V x (chip8.V y) }, 2)
      else if n = 0x1 then
        ({ chip8 with V := upd chip8.V x (chip8.V x ||| chip8.V y) }, 2)
      else if n = 0x2 then
        ({ chip8 with V := upd chip8.V x (chip8.V x &&& chip8.V y) }, 2)
      else if n = 0x3 then
        ({ chip8 with V := upd chip8.V x (chip8.V x ^^^ chip8.V y) }, 2)
      else if n = 0x4 then
        let sum := (chip8.V x + chip8.V y) % 65536
        let v1 := upd chip8.V 0xF (if sum > 0xFF then 1 else 0)
        ({ chip8 with V := upd v1 x (sum &&& 0xFF) }, 2)
      else if n = 0x5 then
        let v1 := upd chip8.V 0xF (if chip8.V x ≥ chip8.V y then 1 else 0)
        ({ chip8 with V := upd v1 x (u8 ((v1 x : Int) - (v1 y : Int))) }, 2)
      else if n = 0x6 then
        let v1 := upd chip8.V 0xF (chip8.V x &&& 0x1)
        ({ chip8 with V := upd v1 x (v1 x >>> 1) }, 2)
      else if n = 0x7 then
        let v1 := upd chip8.V 0xF (if chip8.V y ≥ chip8.V x then 1 else 0)
        ({ chip8 with V := upd v1 x (u8 ((v1 y : Int) - (v1 x : Int))) }, 2)
      else if n = 0xE then
        let v1 := upd chip8.V 0xF ((chip8.V x &&& 0x80) >>> 7)
        ({ chip8 with V := upd v1 x ((v1 x <<< 1) % 256) }, 2)
      else (chip8, 2)
    else if opcode &&& 0xF000 = 0x9000 then
      (chip8, if chip8.V x ≠ chip8.V y then 4 else 2)
    else if opcode &&& 0xF000 = 0xA000 then
      ({ chip8 with I := nnn }, 2)
    else if opcode &&& 0xF000 = 0xB000 then
      ({ chip8 with PC := (nnn + chip8.V 0) % 65536 }, 0)
    else if opcode &&& 0xF000 = 0xC000 then
      ({ chip8 with V := upd chip8.V x ((rnd % 256) &&& kk) }, 2)
    else if opcode &&& 0xF000 = 0xD000 then
      (draw_sprite chip8 x y n, 2)
    else if opcode &&& 0xF000 = 0xE000 then
      if opcode &&& 0x00FF = 0x9E then
        (chip8, if chip8.keypad (chip8.V x) ≠ 0 then 4 else 2)
      else if opcode &&& 0x00FF = 0xA1 then
        (chip8, if chip8.keypad (chip8.V x) = 0 then 4 else 2)
      else (chip8, 2)
    else if opcode &&& 0xF000 = 0xF000 then
      if opcode &&& 0x00FF = 0x07 then
        ({ chip8 with V := upd chip8.V x chip8.delay_timer }, 2)
      else if opcode &&& 0x00FF = 0x0A then
        match (List.range 16).find? (fun i => decide (chip8.keypad i ≠ 0)) with
        | some i => ({ chip8 with V := upd chip8.V x i }, 2)
        | none => (chip8, 0)
      else if opcode &&& 0x00FF = 0x15 then
        ({ chip8 with delay_timer := chip8.V x }, 2)
      else if opcode &&& 0x00FF = 0x18 then
        ({ chip8 with sound_timer := chip8.V x }, 2)
      else if opcode &&& 0x00FF = 0x1E then
        ({ chip8 with I := (chip8.I + chip8.V x) % 65536 }, 2)
      else if opcode &&& 0x00FF = 0x29 then
        ({ chip8 with I := (FONT_START + chip8.V x * 5) % 65536 }, 2)
      else if opcode &&& 0x00FF = 0x33 then
        let m1 := upd chip8.memory chip8.I (chip8.V x / 100)
        let m2 := upd m1 (chip8.I + 1) ((chip8.V x / 10) % 10)
        let m3 := upd m2 (chip8.I + 2) (chip8.V x % 10)
        ({ chip8 with memory := m3 }, 2)
      else if opcode &&& 0x00FF = 0x55 then
        ((List.range (x + 1)).foldl store_reg chip8, 2)
      else if opcode &&& 0x00FF = 0x65 then
        ((List.range (x + 1)).foldl load_reg chip8, 2)
      else (chip8, 2)
    else (chip8, 2)
  { r.1 with PC := (r.1.PC + r.2) % 65536 }

/-- The function `chip8_update_timers`. -/
def chip8_update_timers (chip8 : Chip8) : Chip8 :=
  let c1 : Chip8 :=
    if chip8.delay_timer > 0 then
      { chip8 with delay_timer := u8 ((chip8.delay_timer : Int) - 1) }
    else chip8
  if c1.sound_timer > 0 then
    { c1 with sound_timer := u8 ((c1.sound_timer : Int) - 1) }
  else c1

/-! ## States used to evaluate the code on concrete inputs -/

/-- Register store from outside the interpreter: `V[i] = v`. -/
def set_reg (chip8 : Chip8) (i v : Nat) : Chip8 :=
  { chip8 with V := upd chip8.V i v }

/-- Memory store from outside the interpreter: `memory[a] = v`. -/
def set_mem (chip8 : Chip8) (a v : Nat) : Chip8 :=
  { chip8 with memory := upd chip8.memory a v }

/-- Timer store from outside the interpreter: `delay_timer = d`. -/
def set_delay (chip8 : Chip8) (d : Nat) : Chip8 :=
  { chip8 with delay_timer := d }

/-- The freshly initialised machine. -/
def fresh : Chip8 := chip8_init zeroed

/-- Fresh machine with `V1 = 0xFF`, `V2 = 0x01`. -/
def carry_state : Chip8 := set_reg (set_reg fresh 1 0xFF) 2 0x01

/-- Fresh machine with `V1 = 0x01`, `V2 = 0x01`. -/
def no_carry_state : Chip8 := set_reg (set_reg fresh 1 0x01) 2 0x01

/-- Fresh machine with `V1 = 0x05`, `V2 = 0x05`. -/
def equal_state : Chip8 := set_reg (set_reg fresh 1 0x05) 2 0x05

/-- Fresh machine with `VF = 0xFF`, `V1 = 0x01`. -/
def flag_dest_state : Chip8 := set_reg (set_reg fresh 0xF 0xFF) 1 0x01

/-- Fresh machine with `V2 = 0x05`, `VF = 0x03`. -/
def flag_operand_state : Chip8 := set_reg (set_reg fresh 2 0x05) 0xF 0x03

/-- Fresh machine whose `PC` is `0xFFFE`, the last even 16-bit address. -/
def top_pc_state : Chip8 := { fresh with PC := 0xFFFE }

/-- Fresh machine with `I` at the glyph of digit 0 (`V0 = 0`). -/
def glyph_state : Chip8 := { fresh with I := 0x50 }

/-- Fresh machine with the two program bytes `6A 02` at `0x200`. -/
def program_state : Chip8 := set_mem (set_mem fresh 0x200 0x6A) 0x201 0x02

/-- Fresh machine whose `PC` is `4095`, the last byte of memory. -/
def edge_pc_state : Chip8 := { fresh with PC := 4095 }

/-! ## Array bounds -/

/-- Both indices of `chip8_fetch_opcode`, `PC` and `PC + 1`, lie inside
`memory[MEMORY_SIZE]`. -/
def fetch_in_bounds (chip8 : Chip8) : Prop :=
  chip8.PC + 1 < MEMORY_SIZE

instance (chip8 : Chip8) : Decidable (fetch_in_bounds chip8) := by
  unfold fetch_in_bounds
  infer_instance

/-- Every array index `chip8_execute` uses on `opcode` lies inside its array:
`stack[SP]` after `SP--` in `00EE` and `stack[SP]` in `2NNN` inside
`stack[STACK_SIZE]`, `memory[I + row]` of `DXYN`, `memory[I..I+2]` of `FX33`
and `memory[I + i]` of `FX55` and `FX65` inside `memory[MEMORY_SIZE]`,
`keypad[V[x]]` of `EX9E` and `EXA1` inside `keypad[16]`.  The indices `x`, `y`,
`0xF` of `V`, `i` of `keypad` in `FX0A` and `idx` of `display` are in bounds
for every opcode. -/
def exec_in_bounds (chip8 : Chip8) (opcode : Nat) : Prop :=
  if opcode &&& 0xF000 = 0x0000 then
    if opcode &&& 0x00FF = 0x00EE then u8 ((chip8.SP : Int) - 1) < STACK_SIZE else True
  else if opcode &&& 0xF000 = 0x2000 then chip8.SP < STACK_SIZE
  else if opcode &&& 0xF000 = 0xD000 then
    ∀ row, row < (opcode &&& 0x000F) → chip8.I + row < MEMORY_SIZE
  else if opcode &&& 0xF000 = 0xE000 then
    if opcode &&& 0x00FF = 0x9E ∨ opcode &&& 0x00FF = 0xA1 then
      chip8.V ((opcode &&& 0x0F00) >>> 8) < 16
    else True
  else if opcode &&& 0xF000 = 0xF000 then
    if opcode &&& 0x00FF = 0x33 then chip8.I + 2 < MEMORY_SIZE
    else if opcode &&& 0x00FF = 0x55 ∨ opcode &&& 0x00FF = 0x65 then
      ∀ i, i < ((opcode &&& 0x0F00) >>> 8) + 1 → chip8.I + i < MEMORY_SIZE
    else True
  else True

instance (chip8 : Chip8) (opcode : Nat) : Decidable (exec_in_bounds chip8 opcode) := by
  unfold exec_in_bounds
  infer_instance

/-! ## Errors and outcomes -/

/-- The errors the specification asks the engine to report. -/
inductive EngineError where
  | CapacityExceeded
  | OutOfBounds
  | StackOverflow
  | StackUnderflow
  deriving DecidableEq, Repr

/-- What a call comes to.  `returned` is a call that comes back with its
result.  `reported` is a call that hands an error to its caller: the
specification asks for it, the functions of `chip8.c` return a plain value or
`void` and have no such result.  `unchecked_access` is a call that indexes an
array outside its bounds: the code checks nothing and reports nothing, and what
the access does is fixed by the memory layout, not by `chip8.c`. -/
inductive Outcome (α : Type) where
  | returned (a : α)
  | reported (e : EngineError)
  | unchecked_access

/-! ## The operation `fetch` in the words of the specification -/

/-- The operation `fetch` as the specification words it: the big-endian word at
`PC`, or the error `OutOfBounds` if `PC + 1 ≥ 4096`. -/
def fetch_spec (s : Chip8) : Outcome Nat :=
  if s.PC + 1 ≥ MEMORY_SIZE then Outcome.reported EngineError.OutOfBounds
  else Outcome.returned (s.memory s.PC * 256 + s.memory (s.PC + 1))

/-- What a call of `chip8_fetch_opcode` comes to: the word it returns when both
reads are in bounds, an unchecked access otherwise. -/
def fetch_outcome (s : Chip8) : Outcome Nat :=
  if fetch_in_bounds s then Outcome.returned (chip8_fetch_opcode s)
  else Outcome.unchecked_access

/-! ## Predicates used to state and prove the sprite-draw properties -/

/-- A display cell is lit, as the renderer `chip8_display_terminal` tests it. -/
def lit (cell : Nat) : Prop := cell ≠ 0

instance (cell : Nat) : Decidable (lit cell) := by
  unfold lit
  infer_instance

/-- Some set bit of the `n`-row sprite at `I`, drawn from `(x0, y0)`, lands on
the cell in column `cx` and row `cy`: bit `7 - col` of `memory[I + row]`. -/
def sprite_covers (s : Chip8) (x0 y0 n cx cy : Nat) : Prop :=
  ∃ row, row < n ∧ ∃ col, col < 8 ∧
    ((s.memory (s.I + row)).testBit (7 - col) = true ∧
      (x0 + col) % 64 = cx ∧ (y0 + row) % 32 = cy)

instance (s : Chip8) (x0 y0 n cx cy : Nat) : Decidable (sprite_covers s x0 y0 n cx cy) := by
  unfold sprite_covers
  infer_instance

/-- The value `idx` of the draw loop at `(row, col)`. -/
def target (x_pos y_pos row col : Nat) : Nat :=
  ((y_pos + row) % DISPLAY_HEIGHT) * DISPLAY_WIDTH + (x_pos + col) % DISPLAY_WIDTH

/-- Among the sprite bits the draw loop has visited when it stands at row `r`,
column `c`, a set one landed on display index `idx`. -/
def hit_upto (s : Chip8) (x_pos y_pos r c idx : Nat) : Prop :=
  ∃ row col, (row < r ∨ (row = r ∧ col < c)) ∧ col < 8 ∧
    (s.memory (s.I + row)).testBit (7 - col) = true ∧ target x_pos y_pos row col = idx

/-- Invariant of the draw loop: `t` is the state when the loop started on `s`
stands at row `r`, column `c`. -/
structure DrawInv (s : Chip8) (x_pos y_pos r c : Nat) (t : Chip8) : Prop where
  memory : t.memory = s.memory
  I : t.I = s.I
  PC : t.PC = s.PC
  delay_timer : t.delay_timer = s.delay_timer
  sound_timer : t.sound_timer = s.sound_timer
  stack : t.stack = s.stack
  SP : t.SP = s.SP
  keypad : t.keypad = s.keypad
  V : ∀ i, i ≠ 0xF → t.V i = s.V i
  disp_hit : ∀ idx, hit_upto s x_pos y_pos r c idx →
    t.display idx = s.display idx ^^^ 0xFFFFFFFF
  disp_miss : ∀ idx, ¬ hit_upto s x_pos y_pos r c idx → t.display idx = s.display idx
  flag_set : (∃ idx, hit_upto s x_pos y_pos r c idx ∧ s.display idx = 0xFFFFFFFF) →
    t.V 0xF = 1
  flag_clear : ¬ (∃ idx, hit_upto s x_pos y_pos r c idx ∧ s.display idx = 0xFFFFFFFF) →
    t.V 0xF = 0

/-- Fresh machine whose stack is at capacity: `SP = 16`. -/
def full_stack_state : Chip8 := { fresh with SP := 16 }

/-- Fresh machine with `delay_timer = 3` and `sound_timer = 0`. -/
def timer_state : Chip8 := set_delay fresh 3

/-! ## Call and return in the words of the specification -/

/-- The instruction `00EE` as the specification words it: `StackUnderflow` if
`SP = 0`, else the return address is popped into `PC` and `SP` is decremented. -/
def ret_spec (s : Chip8) : Outcome Chip8 :=
  if s.SP = 0 then Outcome.reported EngineError.StackUnderflow
  else Outcome.returned { s with SP := s.SP - 1, PC := s.stack (s.SP - 1) }

/-- The instruction `2NNN` as the specification words it: `StackOverflow` if
`SP` is at capacity, else `PC + 2` is pushed, `SP` is incremented and
`PC := NNN`. -/
def call_spec (s : Chip8) (nnn : Nat) : Outcome Chip8 :=
  if s.SP = STACK_SIZE then Outcome.reported EngineError.StackOverflow
  else Outcome.returned
    { s with
      stack := upd s.stack s.SP ((s.PC + 2) % 65536)
      SP := s.SP + 1
      PC := nnn }

/-- What a call of `chip8_execute` comes to: the state it leaves when every
index is in bounds, an unchecked access otherwise. -/
def execute_outcome (s : Chip8) (opcode rnd : Nat) : Outcome Chip8 :=
  if exec_in_bounds s opcode then Outcome.returned (chip8_execute s opcode rnd)
  else Outcome.unchecked_access

/-- Index store from outside the interpreter: `I = a`. -/
def set_I (chip8 : Chip8) (a : Nat) : Chip8 :=
  { chip8 with I := a }

/-- Fresh machine with `V3 = 254` and `I = 0x300`. -/
def bcd_state : Chip8 := set_I (set_reg fresh 3 254) 0x300

/-- The machine after glyph 0 was drawn at `(0, 0)` and the renderer cleared
`draw_flag`: cell 0 is lit. -/
def lit_state : Chip8 := { chip8_execute glyph_state 0xD005 0 with draw_flag := false }

/-- The machine after the call `2345` on the fresh machine: `SP = 1`,
`stack[0] = 0x202`, `PC = 0x345`. -/
def called_state : Chip8 := chip8_execute fresh 0x2345 0

/-- Key latch set from outside the interpreter: `keypad[i] = v`. -/
def set_key (chip8 : Chip8) (i v : Nat) : Chip8 :=
  { chip8 with keypad := upd chip8.keypad i v }

/-- Fresh machine with the keys 5 and 9 pressed. -/
def key_state : Chip8 := set_key (set_key fresh 5 1) 9 1

/-- Fresh machine with `V0..V3 = 7, 8, 9, 10` and `I = 0x300`. -/
def regs_state : Chip8 :=
  set_I (set_reg (set_reg (set_reg (set_reg fresh 0 7) 1 8) 2 9) 3 10) 0x300

/-! ## Runs of the machine -/

/-- One call the main loop makes on the machine. -/
inductive Call where
  | execute (opcode rnd : Nat)
  | update_timers
  | reset

/-- The state after one call. -/
def apply_call (s : Chip8) : Call → Chip8
  | Call.execute opcode rnd => chip8_execute s opcode rnd
  | Call.update_timers => chip8_update_timers s
  | Call.reset => chip8_reset s

/-- The state after a sequence of calls. -/
def run (s : Chip8) (calls : List Call) : Chip8 :=
  calls.foldl apply_call s

/-- Every array index the call uses lies inside its array. -/
def call_in_bounds (s : Chip8) : Call → Prop
  | Call.execute opcode _ => exec_in_bounds s opcode
  | _ => True

instance (s : Chip8) (c : Call) : Decidable (call_in_bounds s c) := by
  cases c <;> unfold call_in_bounds <;> infer_instance

/-- Every call of the sequence, run from `s`, keeps its indices in bounds. -/
def run_in_bounds : Chip8 → List Call → Prop
  | _, [] => True
  | s, c :: cs => call_in_bounds s c ∧ run_in_bounds (apply_call s c) cs

instance run_in_bounds_decidable :
    (cs : List Call) → (s : Chip8) → Decidable (run_in_bounds s cs)
  | [], _ => isTrue trivial
  | c :: cs, s => by
    unfold run_in_bounds
    exact @instDecidableAnd _ _ _ (run_in_bounds_decidable cs (apply_call s c))

/-- The 80 bytes `memory[0x050..0x09F]` equal the table `fontset`. -/
def font_intact (s : Chip8) : Prop :=
  ∀ k, k < 80 → s.memory (FONT_START + k) = fontset.getD k 0

/-- The call stores into the glyph region: it is an `FX33` whose bytes
`memory[I..I+2]`, or an `FX55` whose bytes `memory[I..I+X]`, meet
`0x050..0x09F`. -/
def stores_into_font (s : Chip8) : Call → Prop
  | Call.execute opcode _ =>
    opcode &&& 0xF000 = 0xF000 ∧
      ((opcode &&& 0x00FF = 0x33 ∧ s.I < FONT_START + 80 ∧ FONT_START ≤ s.I + 2) ∨
        (opcode &&& 0x00FF = 0x55 ∧ s.I < FONT_START + 80 ∧
          FONT_START ≤ s.I + ((opcode &&& 0x0F00) >>> 8)))
  | _ => False

/-- No call of the sequence, run from `s`, stores into the glyph region. -/
def font_safe : Chip8 → List Call → Prop
  | _, [] => True
  | s, c :: cs => ¬ stores_into_font s c ∧ font_safe (apply_call s c) cs

/-- Every one of the 2048 display cells is `0` or `0xFFFFFFFF`. -/
def two_valued (s : Chip8) : Prop :=
  ∀ i, i < DISPLAY_SIZE → s.display i = 0 ∨ s.display i = 0xFFFFFFFF

instance (s : Chip8) (c : Call) : Decidable (stores_into_font s c) := by
  cases c <;> unfold stores_into_font <;> infer_instance

instance font_safe_decidable : (cs : List Call) → (s : Chip8) → Decidable (font_safe s cs)
  | [], _ => isTrue trivial
  | c :: cs, s => by
    unfold font_safe
    exact @instDecidableAnd _ _ _ (font_safe_decidable cs (apply_call s c))

/-- A run that stores digits and registers at `0x300`, ticks the timers, resets
and points `I` at a glyph: `A300`, `63FE`, `F333`, `F355`, tick, reset, `F029`. -/
def safe_calls : List Call :=
  [Call.execute 0xA300 0, Call.execute 0x63FE 0, Call.execute 0xF333 0, Call.execute 0xF355 0,
   Call.update_timers, Call.reset, Call.execute 0xF029 0]

/-- A run that draws glyph 0 at `(0, 0)`: `A050`, `D005`, tick. -/
def draw_calls : List Call :=
  [Call.execute 0xA050 0, Call.execute 0xD005 0, Call.update_timers]

/-! ## Decoding: the masks and shifts of `chip8_execute` as division and remainder -/

theorem and_0FFF (op : Nat) : op &&& 0x0FFF = op % 4096 :=
  Nat.and_pow_two_sub_one_eq_mod op 12

theorem and_00FF (op : Nat) : op &&& 0x00FF = op % 256 :=
  Nat.and_pow_two_sub_one_eq_mod op 8

theorem and_000F (op : Nat) : op &&& 0x000F = op % 16 :=
  Nat.and_pow_two_sub_one_eq_mod op 4

theorem shr_and (a b i : Nat) : (a &&& b) >>> i = (a >>> i) &&& (b >>> i) := by
  apply Nat.eq_of_testBit_eq
  intro j
  simp [Nat.testBit_shiftRight, Nat.testBit_and]

theorem dec_x (op : Nat) : (op &&& 0x0F00) >>> 8 = op / 256 % 16 := by
  rw [shr_and, Nat.shiftRight_eq_div_pow]
  exact Nat.and_pow_two_sub_one_eq_mod _ 4

theorem dec_y (op : Nat) : (op &&& 0x00F0) >>> 4 = op / 16 % 16 := by
  rw [shr_and, Nat.shiftRight_eq_div_pow]
  exact Nat.and_pow_two_sub_one_eq_mod _ 4

theorem dec_family (op : Nat) : op &&& 0xF000 = op / 4096 % 16 * 4096 := by
  have h : op &&& 0xF000 = ((op &&& 0xF000) >>> 12) <<< 12 := by
    apply Nat.eq_of_testBit_eq
    intro j
    simp only [Nat.testBit_shiftLeft, Nat.testBit_shiftRight, Nat.testBit_and]
    by_cases hj : 12 ≤ j
    · simp [hj, Nat.add_sub_cancel' hj]
    · have hlt : j < 12 := by omega
      simp only [hj, decide_False, Bool.false_and]
      have h2 : Nat.testBit 0xF000 j = false := by
        interval_cases j <;> rfl
      simp [h2]
  rw [h, shr_and, Nat.shiftLeft_eq, Nat.shiftRight_eq_div_pow]
  show (op / 4096 &&& 15) * 4096 = _
  rw [show (15 : Nat) = 2 ^ 4 - 1 from rfl, Nat.and_pow_two_sub_one_eq_mod]

/-! ## Array stores -/

theorem upd_same (a : Nat → Nat) (i v : Nat) : upd a i v i = v := by
  simp [upd]

theorem upd_other (a : Nat → Nat) (i v j : Nat) (h : j ≠ i) : upd a i v j = a j := by
  simp [upd, h]

theorem upd_lt (a : Nat → Nat) (i v b : Nat) (ha : ∀ j, a j < b) (hv : v < b) :
    ∀ j, upd a i v j < b := by
  intro j
  unfold upd
  split
  · exact hv
  · exact ha j

theorem u8_cast (v : Int) : ((u8 v : Nat) : Int) = v % 256 := by
  unfold u8
  exact Int.toNat_of_nonneg (Int.emod_nonneg v (by norm_num))

/-! ## Well-formedness of the states used as concrete inputs -/

theorem fontset_lt (i : Nat) : fontset.getD i 0 < 256 := by
  by_cases h : i < 80
  · interval_cases i <;> decide
  · rw [List.getD_eq_default]
    · norm_num
    · simp only [fontset, List.length_cons, List.length_nil]
      omega

theorem font_loop_eq (n : Nat) (c : Chip8) :
    (List.range n).foldl load_font_byte c =
      { c with memory := fun a =>
          if FONT_START ≤ a ∧ a < FONT_START + n then fontset.getD (a - FONT_START) 0
          else c.memory a } := by
  induction n with
  | zero =>
    have h : ∀ a, ¬ (FONT_START ≤ a ∧ a < FONT_START + 0) := by
      intro a h
      omega
    simp only [List.range_zero, List.foldl_nil, h, if_false]
  | succ k ih =>
    rw [List.range_succ, List.foldl_append, ih]
    simp only [List.foldl_cons, List.foldl_nil, load_font_byte]
    congr 1
    funext a
    unfold upd
    by_cases h1 : a = FONT_START + k
    · subst h1
      simp
    · simp only [h1, if_false]
      by_cases h2 : FONT_START ≤ a ∧ a < FONT_START + k
      · have h3 : FONT_START ≤ a ∧ a < FONT_START + (k + 1) := ⟨h2.1, by omega⟩
        simp only [h2, h3, and_self, if_true]
      · have h3 : ¬ (FONT_START ≤ a ∧ a < FONT_START + (k + 1)) := by
          intro h
          exact h2 ⟨h.1, by omega⟩
        simp only [h2, h3, if_false]

theorem init_eq (c : Chip8) :
    chip8_init c =
      { zeroed with
        memory := fun a =>
          if FONT_START ≤ a ∧ a < FONT_START + 80 then fontset.getD (a - FONT_START) 0 else 0
        PC := PROGRAM_START } := by
  unfold chip8_init
  rw [font_loop_eq]
  rfl

theorem wf_init (c : Chip8) : WF (chip8_init c) := by
  rw [init_eq]
  refine ⟨?_, ?_, ?_, ?_, ?_, ?_, ?_, ?_, ?_, ?_⟩
  · intro a
    show (if FONT_START ≤ a ∧ a < FONT_START + 80 then fontset.getD (a - FONT_START) 0 else 0)
      < 256
    split
    · exact fontset_lt _
    · norm_num
  all_goals simp only [zeroed]
  all_goals intros
  all_goals norm_num

theorem wf_set_reg (s : Chip8) (i v : Nat) (hs : WF s) (hv : v < 256) : WF (set_reg s i v) :=
  { hs with V := upd_lt s.V i v 256 hs.V hv }

/-! ## The arithmetic opcodes `8XY4`, `8XY5`, `8XY7` -/

theorem exec_8XY4_eq (s : Chip8) (x y rnd : Nat) (hx : x < 16) (hy : y < 16) :
    chip8_execute s (0x8004 + x * 256 + y * 16) rnd =
      { s with
        V := upd (upd s.V 0xF (if (s.V x + s.V y) % 65536 > 0xFF then 1 else 0)) x
              ((s.V x + s.V y) % 65536 % 256)
        PC := (s.PC + 2) % 65536 } := by
  have hf : (0x8004 + x * 256 + y * 16) &&& 0xF000 = 0x8000 := by rw [dec_family]; omega
  have hx1 : ((0x8004 + x * 256 + y * 16) &&& 0x0F00) >>> 8 = x := by rw [dec_x]; omega
  have hy1 : ((0x8004 + x * 256 + y * 16) &&& 0x00F0) >>> 4 = y := by rw [dec_y]; omega
  have hn : (0x8004 + x * 256 + y * 16) &&& 0x000F = 4 := by rw [and_000F]; omega
  simp only [chip8_execute, hf, hx1, hy1, hn]
  simp [and_00FF]

theorem exec_8XY5_eq (s : Chip8) (x y rnd : Nat) (hx : x < 16) (hy : y < 16) :
    chip8_execute s (0x8005 + x * 256 + y * 16) rnd =
      { s with
        V := upd (upd s.V 0xF (if s.V x ≥ s.V y then 1 else 0)) x
              (u8 ((upd s.V 0xF (if s.V x ≥ s.V y then 1 else 0) x : Int)
                - (upd s.V 0xF (if s.V x ≥ s.V y then 1 else 0) y : Int)))
        PC := (s.PC + 2) % 65536 } := by
  have hf : (0x8005 + x * 256 + y * 16) &&& 0xF000 = 0x8000 := by rw [dec_family]; omega
  have hx1 : ((0x8005 + x * 256 + y * 16) &&& 0x0F00) >>> 8 = x := by rw [dec_x]; omega
  have hy1 : ((0x8005 + x * 256 + y * 16) &&& 0x00F0) >>> 4 = y := by rw [dec_y]; omega
  have hn : (0x8005 + x * 256 + y * 16) &&& 0x000F = 5 := by rw [and_000F]; omega
  simp only [chip8_execute, hf, hx1, hy1, hn]
  simp

theorem exec_8XY7_eq (s : Chip8) (x y rnd : Nat) (hx : x < 16) (hy : y < 16) :
    chip8_execute s (0x8007 + x * 256 + y * 16) rnd =
      { s with
        V := upd (upd s.V 0xF (if s.V y ≥ s.V x then 1 else 0)) x
              (u8 ((upd s.V 0xF (if s.V y ≥ s.V x then 1 else 0) y : Int)
                - (upd s.V 0xF (if s.V y ≥ s.V x then 1 else 0) x : Int)))
        PC := (s.PC + 2) % 65536 } := by
  have hf : (0x8007 + x * 256 + y * 16) &&& 0xF000 = 0x8000 := by rw [dec_family]; omega
  have hx1 : ((0x8007 + x * 256 + y * 16) &&& 0x0F00) >>> 8 = x := by rw [dec_x]; omega
  have hy1 : ((0x8007 + x * 256 + y * 16) &&& 0x00F0) >>> 4 = y := by rw [dec_y]; omega
  have hn : (0x8007 + x * 256 + y * 16) &&& 0x000F = 7 := by rw [and_000F]; omega
  simp only [chip8_execute, hf, hx1, hy1, hn]
  simp

/-- C1: for every register index `x` other than `0xF` and every `y`, opcode
`8XY4` leaves `VX = (a + b) mod 256` and `VF = 1` exactly when `a + b > 255`,
with `a`, `b` the old `VX`, `VY`, and moves the 16-bit `PC` forward by 2. -/
theorem execute_8XY4 (s : Chip8) (x y rnd : Nat) (hs : WF s) (hx : x < 16) (hxF : x ≠ 0xF)
    (hy : y < 16) :
    (chip8_execute s (0x8004 + x * 256 + y * 16) rnd).V x = (s.V x + s.V y) % 256 ∧
    (chip8_execute s (0x8004 + x * 256 + y * 16) rnd).V 0xF
      = (if s.V x + s.V y > 255 then 1 else 0) ∧
    (chip8_execute s (0x8004 + x * 256 + y * 16) rnd).PC = (s.PC + 2) % 65536 := by
  have ha := hs.V x
  have hb := hs.V y
  rw [exec_8XY4_eq s x y rnd hx hy]
  refine ⟨?_, ?_, rfl⟩
  · simp only [upd_same]
    omega
  · simp only [upd_other _ _ _ _ (Ne.symm hxF), upd_same]
    rw [Nat.mod_eq_of_lt (by omega)]

/-- Witness of C1: `VX = 0xFF`, `VY = 0x01` gives `VX = 0x00`, `VF = 1`;
`VX = 0x01`, `VY = 0x01` gives `VX = 0x02`, `VF = 0`. -/
theorem execute_8XY4_witness :
    (WF carry_state ∧ carry_state.V 1 = 0xFF ∧ carry_state.V 2 = 0x01 ∧
      (chip8_execute carry_state 0x8124 0).V 1 = 0x00 ∧
      (chip8_execute carry_state 0x8124 0).V 0xF = 1 ∧
      (chip8_execute carry_state 0x8124 0).PC = 0x202) ∧
    (WF no_carry_state ∧ no_carry_state.V 1 = 0x01 ∧ no_carry_state.V 2 = 0x01 ∧
      (chip8_execute no_carry_state 0x8124 0).V 1 = 0x02 ∧
      (chip8_execute no_carry_state 0x8124 0).V 0xF = 0 ∧
      (chip8_execute no_carry_state 0x8124 0).PC = 0x202) := by
  have w1 : WF carry_state := wf_set_reg _ _ _ (wf_set_reg _ _ _ (wf_init _) (by decide)) (by decide)
  have w2 : WF no_carry_state :=
    wf_set_reg _ _ _ (wf_set_reg _ _ _ (wf_init _) (by decide)) (by decide)
  have h1 := execute_8XY4 carry_state 1 2 0 w1 (by decide) (by decide) (by decide)
  have h2 := execute_8XY4 no_carry_state 1 2 0 w2 (by decide) (by decide) (by decide)
  exact ⟨⟨w1, by decide, by decide, h1.1.trans (by decide), h1.2.1.trans (by decide),
      h1.2.2.trans (by decide)⟩,
    ⟨w2, by decide, by decide, h2.1.trans (by decide), h2.2.1.trans (by decide),
      h2.2.2.trans (by decide)⟩⟩

/-- C2: for `x` and `y` both different from `0xF`, opcode `8XY5` leaves
`VX = (a - b) mod 256` and `VF = 1` exactly when `a >= b`; opcode `8XY7` leaves
`VX = (b - a) mod 256` and `VF = 1` exactly when `b >= a` (`a`, `b` the old
`VX`, `VY`; the difference is taken in the integers). -/
theorem execute_8XY5_8XY7 (s : Chip8) (x y rnd : Nat) (hx : x < 16) (hxF : x ≠ 0xF)
    (hy : y < 16) (hyF : y ≠ 0xF) :
    (((chip8_execute s (0x8005 + x * 256 + y * 16) rnd).V x : Nat) : Int)
      = ((s.V x : Int) - (s.V y : Int)) % 256 ∧
    (chip8_execute s (0x8005 + x * 256 + y * 16) rnd).V 0xF
      = (if s.V x ≥ s.V y then 1 else 0) ∧
    (((chip8_execute s (0x8007 + x * 256 + y * 16) rnd).V x : Nat) : Int)
      = ((s.V y : Int) - (s.V x : Int)) % 256 ∧
    (chip8_execute s (0x8007 + x * 256 + y * 16) rnd).V 0xF
      = (if s.V y ≥ s.V x then 1 else 0) := by
  rw [exec_8XY5_eq s x y rnd hx hy, exec_8XY7_eq s x y rnd hx hy]
  simp only [upd_same, upd_other _ _ _ _ hxF, upd_other _ _ _ _ hyF,
    upd_other _ _ _ _ (Ne.symm hxF), u8_cast]
  exact ⟨trivial, trivial, trivial, trivial⟩

/-- Witness of C2: `VX = VY = 0x05` gives `VF = 1` and `VX = 0` for both opcodes. -/
theorem execute_8XY5_8XY7_witness :
    equal_state.V 1 = 0x05 ∧ equal_state.V 2 = 0x05 ∧
    (chip8_execute equal_state 0x8125 0).V 0xF = 1 ∧
    (chip8_execute equal_state 0x8127 0).V 0xF = 1 ∧
    (((chip8_execute equal_state 0x8125 0).V 1 : Nat) : Int) = 0 ∧
    (((chip8_execute equal_state 0x8127 0).V 1 : Nat) : Int) = 0 := by
  have h := execute_8XY5_8XY7 equal_state 1 2 0 (by decide) (by decide) (by decide) (by decide)
  exact ⟨by decide, by decide, h.2.1.trans (by decide), h.2.2.2.trans (by decide),
    h.1.trans (by decide), h.2.2.1.trans (by decide)⟩

/-- C3: with `VF` as destination (`x = 0xF`) the code stores the flag first
and the arithmetic result second, so the flag is lost.  On `VF = 0xFF`,
`V1 = 0x01` the opcodes `8F14`, `8F15`, `8F16`, `8F17`, `8F1E` leave
`VF = 0, 0, 0, 1, 2`, while the flags computed from the old registers are
`1, 1, 1, 0, 1`. -/
theorem flag_lost_when_VF_is_destination :
    flag_dest_state.V 0xF = 0xFF ∧ flag_dest_state.V 1 = 0x01 ∧
    ((chip8_execute flag_dest_state 0x8F14 0).V 0xF = 0 ∧
      (if flag_dest_state.V 0xF + flag_dest_state.V 1 > 255 then 1 else 0) = 1) ∧
    ((chip8_execute flag_dest_state 0x8F15 0).V 0xF = 0 ∧
      (if flag_dest_state.V 0xF ≥ flag_dest_state.V 1 then 1 else 0) = 1) ∧
    ((chip8_execute flag_dest_state 0x8F16 0).V 0xF = 0 ∧
      flag_dest_state.V 0xF % 2 = 1) ∧
    ((chip8_execute flag_dest_state 0x8F17 0).V 0xF = 1 ∧
      (if flag_dest_state.V 1 ≥ flag_dest_state.V 0xF then 1 else 0) = 0) ∧
    ((chip8_execute flag_dest_state 0x8F1E 0).V 0xF = 2 ∧
      flag_dest_state.V 0xF / 128 % 2 = 1) := by
  decide

/-- C4: with `VF` as the operand `VY` (`y = 0xF`) the code overwrites `VF`
with the flag before it reads `VY`.  On `V2 = 0x05`, `VF = 0x03` opcode `82F5`
leaves `V2 = 5 - 1 = 4`, not `(5 - 3) mod 256 = 2`, and opcode `82F7` leaves
`V2 = (0 - 5) mod 256 = 251`, not `(3 - 5) mod 256 = 254`. -/
theorem operand_VF_read_after_flag_write :
    flag_operand_state.V 2 = 0x05 ∧ flag_operand_state.V 0xF = 0x03 ∧
    (chip8_execute flag_operand_state 0x82F5 0).V 2 = 4 ∧
    (((flag_operand_state.V 2 : Nat) : Int) - (flag_operand_state.V 0xF : Int)) % 256 = 2 ∧
    (chip8_execute flag_operand_state 0x82F7 0).V 2 = 251 ∧
    (((flag_operand_state.V 0xF : Nat) : Int) - (flag_operand_state.V 2 : Int)) % 256 = 254 := by
  decide

/-! ## Call and return -/

theorem exec_2NNN_eq (s : Chip8) (nnn rnd : Nat) (hn : nnn < 4096) :
    chip8_execute s (0x2000 + nnn) rnd =
      { s with
        stack := upd s.stack s.SP ((s.PC + 2) % 65536)
        SP := (s.SP + 1) % 256
        PC := nnn } := by
  have hf : (0x2000 + nnn) &&& 0xF000 = 0x2000 := by rw [dec_family]; omega
  have hnn : (0x2000 + nnn) &&& 0x0FFF = nnn := by rw [and_0FFF]; omega
  simp only [chip8_execute, hf, hnn]
  simp
  omega

theorem exec_00EE_eq (s : Chip8) (rnd : Nat) :
    chip8_execute s 0x00EE rnd =
      { s with
        SP := u8 ((s.SP : Int) - 1)
        PC := s.stack (u8 ((s.SP : Int) - 1)) % 65536 } := by
  have hf : 0x00EE &&& 0xF000 = 0x0000 := by decide
  have hk : 0x00EE &&& 0x00FF = 0x00EE := by decide
  simp only [chip8_execute, hf, hk]
  simp

/-- C5, as stated, fails at `PC = 0xFFFE`: the slot written by the call holds
`0`, a 16-bit value, and not `PC + 2 = 0x10000`. -/
theorem call_stores_wrapped_return_address :
    top_pc_state.SP < 16 ∧ top_pc_state.PC = 0xFFFE ∧
    (chip8_execute top_pc_state 0x2345 0).stack top_pc_state.SP = 0 ∧
    (chip8_execute top_pc_state 0x2345 0).stack top_pc_state.SP ≠ top_pc_state.PC + 2 := by
  decide

/-- C5, amended: for `SP < 16` and a 12-bit `NNN`, after `2NNN` the state has
`PC = NNN`, `SP = SP0 + 1` and `stack[SP0] = (PC0 + 2) mod 65536`; after the
following `00EE` it has `PC = (PC0 + 2) mod 65536` and `SP = SP0`. -/
theorem call_return_round_trip (s : Chip8) (nnn r1 r2 : Nat) (hsp : s.SP < 16)
    (hn : nnn < 4096) :
    (chip8_execute s (0x2000 + nnn) r1).PC = nnn ∧
    (chip8_execute s (0x2000 + nnn) r1).SP = s.SP + 1 ∧
    (chip8_execute s (0x2000 + nnn) r1).stack s.SP = (s.PC + 2) % 65536 ∧
    (chip8_execute (chip8_execute s (0x2000 + nnn) r1) 0x00EE r2).PC = (s.PC + 2) % 65536 ∧
    (chip8_execute (chip8_execute s (0x2000 + nnn) r1) 0x00EE r2).SP = s.SP := by
  have hsp1 : (s.SP + 1) % 256 = s.SP + 1 := Nat.mod_eq_of_lt (by omega)
  have hback : u8 (((s.SP + 1 : Nat) : Int) - 1) = s.SP := by
    unfold u8
    omega
  rw [exec_00EE_eq, exec_2NNN_eq s nnn r1 hn]
  simp only [hsp1, hback, upd_same]
  refine ⟨trivial, trivial, trivial, ?_, trivial⟩
  omega

/-- Witness of C5 on the fresh machine (`PC = 0x200`, `SP = 0`) and `NNN = 0x345`. -/
theorem call_return_round_trip_witness :
    fresh.SP < 16 ∧ fresh.PC = 0x200 ∧
    (chip8_execute fresh 0x2345 0).PC = 0x345 ∧
    (chip8_execute fresh 0x2345 0).SP = 1 ∧
    (chip8_execute fresh 0x2345 0).stack 0 = 0x202 ∧
    (chip8_execute (chip8_execute fresh 0x2345 0) 0x00EE 0).PC = 0x202 ∧
    (chip8_execute (chip8_execute fresh 0x2345 0) 0x00EE 0).SP = 0 := by
  have h := call_return_round_trip fresh 0x345 0 0 (by decide) (by decide)
  exact ⟨by decide, by decide, h.1.trans (by decide), h.2.1.trans (by decide),
    h.2.2.1.trans (by decide), h.2.2.2.1.trans (by decide), h.2.2.2.2.trans (by decide)⟩

/-! ## The sprite draw `DXYN` -/

theorem bit_test (b col : Nat) (hc : col < 8) :
    b &&& (0x80 >>> col) ≠ 0 ↔ b.testBit (7 - col) = true := by
  have h : (0x80 >>> col) = 2 ^ (7 - col) := by
    interval_cases col <;> rfl
  rw [h, Nat.and_two_pow]
  cases b.testBit (7 - col) <;> simp

theorem target_inj (x0 y0 r1 c1 r2 c2 : Nat) (hr1 : r1 < 32) (hr2 : r2 < 32) (hc1 : c1 < 8)
    (hc2 : c2 < 8) (h : target x0 y0 r1 c1 = target x0 y0 r2 c2) : r1 = r2 ∧ c1 = c2 := by
  unfold target at h
  simp only [DISPLAY_HEIGHT, DISPLAY_WIDTH] at h
  omega

theorem target_lt (x0 y0 r c : Nat) : target x0 y0 r c < DISPLAY_SIZE := by
  unfold target
  simp only [DISPLAY_HEIGHT, DISPLAY_WIDTH, DISPLAY_SIZE]
  omega

theorem hit_upto_start (s : Chip8) (x0 y0 idx : Nat) : ¬ hit_upto s x0 y0 0 0 idx := by
  rintro ⟨row, col, h, -⟩
  omega

theorem hit_upto_succ (s : Chip8) (x0 y0 r c idx : Nat) (hc : c < 8) :
    hit_upto s x0 y0 r (c + 1) idx ↔
      hit_upto s x0 y0 r c idx ∨
        ((s.memory (s.I + r)).testBit (7 - c) = true ∧ target x0 y0 r c = idx) := by
  constructor
  · rintro ⟨row, col, h, h8, hb, ht⟩
    by_cases hnew : row = r ∧ col = c
    · obtain ⟨rfl, rfl⟩ := hnew
      exact Or.inr ⟨hb, ht⟩
    · exact Or.inl ⟨row, col, by omega, h8, hb, ht⟩
  · rintro (⟨row, col, h, h8, hb, ht⟩ | ⟨hb, ht⟩)
    · exact ⟨row, col, by omega, h8, hb, ht⟩
    · exact ⟨r, c, by omega, hc, hb, ht⟩

theorem hit_upto_row (s : Chip8) (x0 y0 r idx : Nat) :
    hit_upto s x0 y0 r 8 idx ↔ hit_upto s x0 y0 (r + 1) 0 idx := by
  constructor
  · rintro ⟨row, col, h, h8, hb, ht⟩
    exact ⟨row, col, by omega, h8, hb, ht⟩
  · rintro ⟨row, col, h, h8, hb, ht⟩
    exact ⟨row, col, by omega, h8, hb, ht⟩

theorem hit_upto_fresh (s : Chip8) (x0 y0 r c : Nat) (hr : r < 32) (hc : c < 8) :
    ¬ hit_upto s x0 y0 r c (target x0 y0 r c) := by
  rintro ⟨row, col, h, h8, -, ht⟩
  have hrow : row < 32 := by omega
  have := target_inj x0 y0 row col r c hrow hr h8 hc ht
  omega

theorem DrawInv.congr {s t : Chip8} {x0 y0 r c r2 c2 : Nat}
    (hiff : ∀ idx, hit_upto s x0 y0 r c idx ↔ hit_upto s x0 y0 r2 c2 idx)
    (h : DrawInv s x0 y0 r c t) : DrawInv s x0 y0 r2 c2 t := by
  refine ⟨h.memory, h.I, h.PC, h.delay_timer, h.sound_timer, h.stack, h.SP, h.keypad, h.V,
    ?_, ?_, ?_, ?_⟩
  · intro idx hh
    exact h.disp_hit idx ((hiff idx).2 hh)
  · intro idx hh
    exact h.disp_miss idx (fun h2 => hh ((hiff idx).1 h2))
  · rintro ⟨idx, hh, hd⟩
    exact h.flag_set ⟨idx, (hiff idx).2 hh, hd⟩
  · intro hn
    exact h.flag_clear (fun ⟨idx, hh, hd⟩ => hn ⟨idx, (hiff idx).1 hh, hd⟩)

theorem draw_col_lit (b x0 y0 r c : Nat) (t : Chip8) (hb : b &&& (0x80 >>> c) ≠ 0)
    (hm : t.display (target x0 y0 r c) = 0xFFFFFFFF) :
    draw_col b x0 y0 r t c =
      { t with
        V := upd t.V 0xF 1
        display := upd t.display (target x0 y0 r c)
          (t.display (target x0 y0 r c) ^^^ 0xFFFFFFFF) } := by
  unfold target at hm
  unfold draw_col target
  simp only [hb, hm, if_true, not_false_eq_true, ne_eq]

theorem draw_col_unlit (b x0 y0 r c : Nat) (t : Chip8) (hb : b &&& (0x80 >>> c) ≠ 0)
    (hm : t.display (target x0 y0 r c) ≠ 0xFFFFFFFF) :
    draw_col b x0 y0 r t c =
      { t with
        display := upd t.display (target x0 y0 r c)
          (t.display (target x0 y0 r c) ^^^ 0xFFFFFFFF) } := by
  unfold target at hm
  unfold draw_col target
  simp only [hb, hm, if_true, if_false, not_false_eq_true, ne_eq]

theorem draw_col_skip (b x0 y0 r c : Nat) (t : Chip8) (hb : ¬ b &&& (0x80 >>> c) ≠ 0) :
    draw_col b x0 y0 r t c = t := by
  unfold draw_col
  rw [if_neg hb]

theorem draw_col_inv (s t : Chip8) (x0 y0 r c : Nat) (hr : r < 32) (hc : c < 8)
    (h : DrawInv s x0 y0 r c t) :
    DrawInv s x0 y0 r (c + 1) (draw_col (s.memory (s.I + r)) x0 y0 r t c) := by
  by_cases hb : s.memory (s.I + r) &&& (0x80 >>> c) ≠ 0
  · have hbit := (bit_test _ _ hc).1 hb
    have hfresh := hit_upto_fresh s x0 y0 r c hr hc
    have hold : t.display (target x0 y0 r c) = s.display (target x0 y0 r c) :=
      h.disp_miss _ hfresh
    have hnew : hit_upto s x0 y0 r (c + 1) (target x0 y0 r c) :=
      (hit_upto_succ s x0 y0 r c _ hc).2 (Or.inr ⟨hbit, rfl⟩)
    have hdisp_hit : ∀ idx, hit_upto s x0 y0 r (c + 1) idx →
        upd t.display (target x0 y0 r c) (t.display (target x0 y0 r c) ^^^ 0xFFFFFFFF) idx
          = s.display idx ^^^ 0xFFFFFFFF := by
      intro idx hh
      rcases (hit_upto_succ s x0 y0 r c idx hc).1 hh with h1 | ⟨-, h1⟩
      · have hne : idx ≠ target x0 y0 r c := by
          rintro rfl
          exact hfresh h1
        rw [upd_other _ _ _ _ hne]
        exact h.disp_hit idx h1
      · subst h1
        rw [upd_same, hold]
    have hdisp_miss : ∀ idx, ¬ hit_upto s x0 y0 r (c + 1) idx →
        upd t.display (target x0 y0 r c) (t.display (target x0 y0 r c) ^^^ 0xFFFFFFFF) idx
          = s.display idx := by
      intro idx hh
      have h1 : ¬ hit_upto s x0 y0 r c idx :=
        fun h2 => hh ((hit_upto_succ s x0 y0 r c idx hc).2 (Or.inl h2))
      have hne : idx ≠ target x0 y0 r c := by
        rintro rfl
        exact hh hnew
      rw [upd_other _ _ _ _ hne]
      exact h.disp_miss idx h1
    by_cases hm : t.display (target x0 y0 r c) = 0xFFFFFFFF
    · rw [draw_col_lit _ _ _ _ _ _ hb hm]
      refine ⟨h.memory, h.I, h.PC, h.delay_timer, h.sound_timer, h.stack, h.SP, h.keypad,
        ?_, hdisp_hit, hdisp_miss, ?_, ?_⟩
      · intro i hi
        show upd t.V 0xF 1 i = s.V i
        rw [upd_other _ _ _ _ hi]
        exact h.V i hi
      · intro _
        show upd t.V 0xF 1 0xF = 1
        exact upd_same _ _ _
      · intro hn
        exact absurd ⟨target x0 y0 r c, hnew, hold ▸ hm⟩ hn
    · rw [draw_col_unlit _ _ _ _ _ _ hb hm]
      refine ⟨h.memory, h.I, h.PC, h.delay_timer, h.sound_timer, h.stack, h.SP, h.keypad,
        h.V, hdisp_hit, hdisp_miss, ?_, ?_⟩
      · rintro ⟨idx, hh, hd⟩
        rcases (hit_upto_succ s x0 y0 r c idx hc).1 hh with h1 | ⟨-, h1⟩
        · exact h.flag_set ⟨idx, h1, hd⟩
        · subst h1
          exact absurd (hold.trans hd) hm
      · intro hn
        exact h.flag_clear
          (fun ⟨idx, hh, hd⟩ => hn ⟨idx, (hit_upto_succ s x0 y0 r c idx hc).2 (Or.inl hh), hd⟩)
  · rw [draw_col_skip _ _ _ _ _ _ hb]
    have hbit : ¬ (s.memory (s.I + r)).testBit (7 - c) = true :=
      fun h2 => hb ((bit_test _ _ hc).2 h2)
    refine DrawInv.congr (fun idx => ?_) h
    rw [hit_upto_succ s x0 y0 r c idx hc]
    constructor
    · exact Or.inl
    · rintro (h1 | ⟨h1, -⟩)
      · exact h1
      · exact absurd h1 hbit

theorem draw_cols_inv (s t : Chip8) (x0 y0 r : Nat) (hr : r < 32) (h : DrawInv s x0 y0 r 0 t)
    (k : Nat) (hk : k ≤ 8) :
    DrawInv s x0 y0 r k ((List.range k).foldl (draw_col (s.memory (s.I + r)) x0 y0 r) t) := by
  induction k with
  | zero => exact h
  | succ j ih =>
    rw [List.range_succ, List.foldl_append]
    exact draw_col_inv s _ x0 y0 r j hr (by omega) (ih (by omega))

theorem draw_row_inv (s t : Chip8) (x0 y0 r : Nat) (hr : r < 32) (h : DrawInv s x0 y0 r 0 t) :
    DrawInv s x0 y0 (r + 1) 0 (draw_row x0 y0 t r) := by
  unfold draw_row
  simp only [h.memory, h.I]
  exact DrawInv.congr (hit_upto_row s x0 y0 r) (draw_cols_inv s t x0 y0 r hr h 8 (le_refl 8))

theorem draw_rows_inv (s t : Chip8) (x0 y0 : Nat) (h : DrawInv s x0 y0 0 0 t)
    (n : Nat) (hn : n ≤ 32) :
    DrawInv s x0 y0 n 0 ((List.range n).foldl (draw_row x0 y0) t) := by
  induction n with
  | zero => exact h
  | succ j ih =>
    rw [List.range_succ, List.foldl_append]
    exact draw_row_inv s _ x0 y0 j (by omega) (ih (by omega))

theorem draw_sprite_inv (s : Chip8) (x y n : Nat) (hn : n ≤ 32) :
    DrawInv s (s.V x % 64) (s.V y % 32) n 0 (draw_sprite s x y n) := by
  have h0 : DrawInv s (s.V x % 64) (s.V y % 32) 0 0 { s with V := upd s.V 0xF 0 } := by
    refine ⟨rfl, rfl, rfl, rfl, rfl, rfl, rfl, rfl, ?_, ?_, ?_, ?_, ?_⟩
    · intro i hi
      show upd s.V 0xF 0 i = s.V i
      exact upd_other _ _ _ _ hi
    · intro idx hh
      exact absurd hh (hit_upto_start _ _ _ _)
    · intro idx _
      rfl
    · rintro ⟨idx, hh, -⟩
      exact absurd hh (hit_upto_start _ _ _ _)
    · intro _
      show upd s.V 0xF 0 0xF = 0
      exact upd_same _ _ _
  have h := draw_rows_inv s _ _ _ h0 n hn
  exact ⟨h.memory, h.I, h.PC, h.delay_timer, h.sound_timer, h.stack, h.SP, h.keypad, h.V,
    h.disp_hit, h.disp_miss, h.flag_set, h.flag_clear⟩

theorem exec_DXYN_eq (s : Chip8) (x y n rnd : Nat) (hx : x < 16) (hy : y < 16) (hn : n < 16) :
    chip8_execute s (0xD000 + x * 256 + y * 16 + n) rnd =
      { draw_sprite s x y n with PC := ((draw_sprite s x y n).PC + 2) % 65536 } := by
  have hf : (0xD000 + x * 256 + y * 16 + n) &&& 0xF000 = 0xD000 := by rw [dec_family]; omega
  have hx1 : ((0xD000 + x * 256 + y * 16 + n) &&& 0x0F00) >>> 8 = x := by rw [dec_x]; omega
  have hy1 : ((0xD000 + x * 256 + y * 16 + n) &&& 0x00F0) >>> 4 = y := by rw [dec_y]; omega
  have hn1 : (0xD000 + x * 256 + y * 16 + n) &&& 0x000F = n := by rw [and_000F]; omega
  simp only [chip8_execute, hf, hx1, hy1, hn1]
  simp

theorem hit_upto_covers (s : Chip8) (x0 y0 n cx cy : Nat) (hcx : cx < 64) :
    hit_upto s x0 y0 n 0 (cy * 64 + cx) ↔ sprite_covers s x0 y0 n cx cy := by
  unfold hit_upto sprite_covers target
  simp only [DISPLAY_HEIGHT, DISPLAY_WIDTH]
  constructor
  · rintro ⟨row, col, h, h8, hb, ht⟩
    exact ⟨row, by omega, col, h8, hb, by omega, by omega⟩
  · rintro ⟨row, hrow, col, h8, hb, h1, h2⟩
    exact ⟨row, col, Or.inl hrow, h8, hb, by omega⟩

theorem cell_lt (cx cy : Nat) (hcx : cx < 64) (hcy : cy < 32) : cy * 64 + cx < DISPLAY_SIZE := by
  show cy * 64 + cx < 64 * 32
  omega

theorem hit_upto_cell (s : Chip8) (x0 y0 r c idx : Nat) (h : hit_upto s x0 y0 r c idx) :
    ∃ cx cy, cx < 64 ∧ cy < 32 ∧ idx = cy * 64 + cx := by
  obtain ⟨row, col, -, -, -, ht⟩ := h
  refine ⟨(x0 + col) % 64, (y0 + row) % 32, Nat.mod_lt _ (by norm_num),
    Nat.mod_lt _ (by norm_num), ?_⟩
  rw [← ht]
  rfl

theorem hit_upto_agree (s t : Chip8) (x0 y0 r c idx : Nat) (hm : t.memory = s.memory)
    (hI : t.I = s.I) : hit_upto t x0 y0 r c idx ↔ hit_upto s x0 y0 r c idx := by
  unfold hit_upto
  rw [hm, hI]

theorem flip_lit (d : Nat) (h : d = 0 ∨ d = 0xFFFFFFFF) : lit (d ^^^ 0xFFFFFFFF) ↔ ¬ lit d := by
  unfold lit
  rcases h with rfl | rfl <;> decide

theorem lit_iff_full (d : Nat) (h : d = 0 ∨ d = 0xFFFFFFFF) : lit d ↔ d = 0xFFFFFFFF := by
  unfold lit
  rcases h with rfl | rfl <;> decide

theorem flip_two_valued (d : Nat) (h : d = 0 ∨ d = 0xFFFFFFFF) :
    d ^^^ 0xFFFFFFFF = 0 ∨ d ^^^ 0xFFFFFFFF = 0xFFFFFFFF := by
  rcases h with rfl | rfl <;> decide

theorem exec_DXYN_inv (s : Chip8) (x y n rnd : Nat) (hx : x < 16) (hy : y < 16) (hn : n < 16) :
    DrawInv { s with PC := (s.PC + 2) % 65536 } (s.V x % 64) (s.V y % 32) n 0
      (chip8_execute s (0xD000 + x * 256 + y * 16 + n) rnd) := by
  have h := draw_sprite_inv s x y n (by omega)
  rw [exec_DXYN_eq s x y n rnd hx hy hn, h.PC]
  exact ⟨h.memory, h.I, rfl, h.delay_timer, h.sound_timer, h.stack, h.SP, h.keypad, h.V,
    h.disp_hit, h.disp_miss, h.flag_set, h.flag_clear⟩

theorem exec_DXYN_draw_flag (s : Chip8) (x y n rnd : Nat) (hx : x < 16) (hy : y < 16)
    (hn : n < 16) : (chip8_execute s (0xD000 + x * 256 + y * 16 + n) rnd).draw_flag = true := by
  rw [exec_DXYN_eq s x y n rnd hx hy hn]
  rfl

theorem exec_00E0_eq (s : Chip8) (rnd : Nat) :
    chip8_execute s 0x00E0 rnd =
      { s with
        display := fun i => if i < DISPLAY_SIZE then 0 else s.display i
        draw_flag := true
        PC := (s.PC + 2) % 65536 } := by
  have hf : 0x00E0 &&& 0xF000 = 0x0000 := by decide
  have hk : 0x00E0 &&& 0x00FF = 0x00E0 := by decide
  simp only [chip8_execute, hf, hk]
  simp

/-- C6: on a display whose cells are each `0` or `0xFFFFFFFF`, `DXYN` flips the
lit state of a cell `(cx, cy)` exactly when some set sprite bit `(row, col)`,
`row < N`, `col < 8`, bit `7 - col` of `memory[I + row]`, has
`((x0 + col) mod 64, (y0 + row) mod 32) = (cx, cy)`, with `x0 = VX mod 64` and
`y0 = VY mod 32` read before the instruction; every other cell keeps its value;
`VF` is 1 if a flipped cell was lit before and 0 otherwise; memory is unchanged. -/
theorem draw_DXYN (s : Chip8) (x y n rnd : Nat) (hx : x < 16) (hy : y < 16) (hn : n < 16)
    (h2 : ∀ i, i < DISPLAY_SIZE → s.display i = 0 ∨ s.display i = 0xFFFFFFFF)
    (_hI : s.I + n ≤ MEMORY_SIZE) :
    (∀ cx cy, cx < 64 → cy < 32 →
      ((lit ((chip8_execute s (0xD000 + x * 256 + y * 16 + n) rnd).display (cy * 64 + cx))
          ↔ ¬ lit (s.display (cy * 64 + cx)))
        ↔ sprite_covers s (s.V x % 64) (s.V y % 32) n cx cy) ∧
      (¬ sprite_covers s (s.V x % 64) (s.V y % 32) n cx cy →
        (chip8_execute s (0xD000 + x * 256 + y * 16 + n) rnd).display (cy * 64 + cx)
          = s.display (cy * 64 + cx))) ∧
    ((∃ cx cy, cx < 64 ∧ cy < 32 ∧ sprite_covers s (s.V x % 64) (s.V y % 32) n cx cy ∧
        lit (s.display (cy * 64 + cx))) →
      (chip8_execute s (0xD000 + x * 256 + y * 16 + n) rnd).V 0xF = 1) ∧
    (¬ (∃ cx cy, cx < 64 ∧ cy < 32 ∧ sprite_covers s (s.V x % 64) (s.V y % 32) n cx cy ∧
        lit (s.display (cy * 64 + cx))) →
      (chip8_execute s (0xD000 + x * 256 + y * 16 + n) rnd).V 0xF = 0) ∧
    (chip8_execute s (0xD000 + x * 256 + y * 16 + n) rnd).memory = s.memory := by
  have inv := exec_DXYN_inv s x y n rnd hx hy hn
  have hcov : ∀ cx cy, cx < 64 →
      (hit_upto { s with PC := (s.PC + 2) % 65536 } (s.V x % 64) (s.V y % 32) n 0 (cy * 64 + cx)
        ↔ sprite_covers s (s.V x % 64) (s.V y % 32) n cx cy) :=
    fun cx cy hcx => hit_upto_covers _ _ _ n cx cy hcx
  refine ⟨?_, ?_, ?_, inv.memory⟩
  · intro cx cy hcx hcy
    have hd := h2 (cy * 64 + cx) (cell_lt cx cy hcx hcy)
    by_cases hc : sprite_covers s (s.V x % 64) (s.V y % 32) n cx cy
    · have e := inv.disp_hit _ ((hcov cx cy hcx).2 hc)
      refine ⟨?_, fun hnc => absurd hc hnc⟩
      rw [e]
      exact ⟨fun _ => hc, fun _ => flip_lit _ hd⟩
    · have e := inv.disp_miss _ (fun hh => hc ((hcov cx cy hcx).1 hh))
      refine ⟨?_, fun _ => e⟩
      rw [e]
      constructor
      · intro hiff
        by_cases hl : lit (s.display (cy * 64 + cx))
        · exact absurd hl (hiff.1 hl)
        · exact absurd (hiff.2 hl) hl
      · intro hh
        exact absurd hh hc
  · rintro ⟨cx, cy, hcx, hcy, hc, hl⟩
    have hd := h2 (cy * 64 + cx) (cell_lt cx cy hcx hcy)
    exact inv.flag_set ⟨cy * 64 + cx, (hcov cx cy hcx).2 hc, (lit_iff_full _ hd).1 hl⟩
  · intro hnone
    apply inv.flag_clear
    rintro ⟨idx, hh, hfull⟩
    obtain ⟨cx, cy, hcx, hcy, rfl⟩ := hit_upto_cell _ _ _ _ _ _ hh
    have hd := h2 (cy * 64 + cx) (cell_lt cx cy hcx hcy)
    exact hnone ⟨cx, cy, hcx, hcy, (hcov cx cy hcx).1 hh, (lit_iff_full _ hd).2 hfull⟩

theorem fresh_display (i : Nat) : fresh.display i = 0 := by
  show (chip8_init zeroed).display i = 0
  rw [init_eq]
  rfl

theorem glyph_state_display (i : Nat) : glyph_state.display i = 0 := by
  unfold glyph_state
  exact fresh_display i

/-- Witness of C6: glyph 0 (`F0 90 90 90 F0`) drawn at `(0, 0)` on the blank
display of the fresh machine. -/
theorem draw_DXYN_witness :
    (∀ i, i < DISPLAY_SIZE → glyph_state.display i = 0 ∨ glyph_state.display i = 0xFFFFFFFF) ∧
    glyph_state.I + 5 ≤ MEMORY_SIZE ∧
    (sprite_covers glyph_state 0 0 5 3 0 ∧
      lit ((chip8_execute glyph_state 0xD005 0).display (0 * 64 + 3)) ∧
      ¬ lit (glyph_state.display (0 * 64 + 3))) ∧
    (¬ sprite_covers glyph_state 0 0 5 1 1 ∧
      (chip8_execute glyph_state 0xD005 0).display (1 * 64 + 1)
        = glyph_state.display (1 * 64 + 1)) ∧
    (chip8_execute glyph_state 0xD005 0).V 0xF = 0 ∧
    (chip8_execute glyph_state 0xD005 0).memory = glyph_state.memory := by
  have h2 : ∀ i, i < DISPLAY_SIZE →
      glyph_state.display i = 0 ∨ glyph_state.display i = 0xFFFFFFFF :=
    fun i _ => Or.inl (glyph_state_display i)
  have hI : glyph_state.I + 5 ≤ MEMORY_SIZE := by decide
  have h := draw_DXYN glyph_state 0 0 5 0 (by decide) (by decide) (by decide) h2 hI
  rw [show (0xD000 + 0 * 256 + 0 * 16 + 5 : Nat) = 0xD005 from rfl,
    show glyph_state.V 0 % 64 = 0 from by decide,
    show glyph_state.V 0 % 32 = 0 from by decide] at h
  have c1 : sprite_covers glyph_state 0 0 5 3 0 := by decide
  have c2 : ¬ sprite_covers glyph_state 0 0 5 1 1 := by decide
  have u : ¬ lit (glyph_state.display (0 * 64 + 3)) := by decide
  refine ⟨h2, hI, ⟨c1, ((h.1 3 0 (by decide) (by decide)).1.2 c1).2 u, u⟩,
    ⟨c2, (h.1 1 1 (by decide) (by decide)).2 c2⟩, h.2.2.1 ?_, h.2.2.2⟩
  rintro ⟨cx, cy, -, -, -, hl⟩
  exact hl (glyph_state_display _)

/-- C7: on a display whose cells are each `0` or `0xFFFFFFFF`, with `x` and `y`
other than `0xF`, executing `DXYN` twice leaves the whole display as it was
before the first draw; after the second draw `VF = 1` exactly when some set
sprite bit lands on a cell that was lit just before the second draw, and
`VF = 0` otherwise. -/
theorem double_draw_restores (s : Chip8) (x y n r1 r2 : Nat) (hx : x < 16) (hxF : x ≠ 0xF)
    (hy : y < 16) (hyF : y ≠ 0xF) (hn : n < 16)
    (h2 : ∀ i, i < DISPLAY_SIZE → s.display i = 0 ∨ s.display i = 0xFFFFFFFF)
    (_hI : s.I + n ≤ MEMORY_SIZE) :
    (chip8_execute (chip8_execute s (0xD000 + x * 256 + y * 16 + n) r1)
        (0xD000 + x * 256 + y * 16 + n) r2).display = s.display ∧
    ((chip8_execute (chip8_execute s (0xD000 + x * 256 + y * 16 + n) r1)
        (0xD000 + x * 256 + y * 16 + n) r2).V 0xF = 1 ↔
      ∃ cx cy, cx < 64 ∧ cy < 32 ∧ sprite_covers s (s.V x % 64) (s.V y % 32) n cx cy ∧
        lit ((chip8_execute s (0xD000 + x * 256 + y * 16 + n) r1).display (cy * 64 + cx))) ∧
    (¬ (∃ cx cy, cx < 64 ∧ cy < 32 ∧ sprite_covers s (s.V x % 64) (s.V y % 32) n cx cy ∧
        lit ((chip8_execute s (0xD000 + x * 256 + y * 16 + n) r1).display (cy * 64 + cx))) →
      (chip8_execute (chip8_execute s (0xD000 + x * 256 + y * 16 + n) r1)
        (0xD000 + x * 256 + y * 16 + n) r2).V 0xF = 0) := by
  have inv1 := exec_DXYN_inv s x y n r1 hx hy hn
  have inv2 := exec_DXYN_inv (chip8_execute s (0xD000 + x * 256 + y * 16 + n) r1) x y n r2
    hx hy hn
  have hVx : (chip8_execute s (0xD000 + x * 256 + y * 16 + n) r1).V x = s.V x := inv1.V x hxF
  have hVy : (chip8_execute s (0xD000 + x * 256 + y * 16 + n) r1).V y = s.V y := inv1.V y hyF
  rw [hVx, hVy] at inv2
  have hagree : ∀ idx,
      hit_upto { chip8_execute s (0xD000 + x * 256 + y * 16 + n) r1 with
          PC := ((chip8_execute s (0xD000 + x * 256 + y * 16 + n) r1).PC + 2) % 65536 }
        (s.V x % 64) (s.V y % 32) n 0 idx ↔
      hit_upto { s with PC := (s.PC + 2) % 65536 } (s.V x % 64) (s.V y % 32) n 0 idx :=
    fun idx => hit_upto_agree _ _ _ _ _ _ idx inv1.memory inv1.I
  have hcov : ∀ cx cy, cx < 64 →
      (hit_upto { s with PC := (s.PC + 2) % 65536 } (s.V x % 64) (s.V y % 32) n 0 (cy * 64 + cx)
        ↔ sprite_covers s (s.V x % 64) (s.V y % 32) n cx cy) :=
    fun cx cy hcx => hit_upto_covers _ _ _ n cx cy hcx
  have hmid : ∀ i, i < DISPLAY_SIZE →
      (chip8_execute s (0xD000 + x * 256 + y * 16 + n) r1).display i = 0 ∨
      (chip8_execute s (0xD000 + x * 256 + y * 16 + n) r1).display i = 0xFFFFFFFF := by
    intro i hi
    by_cases hh : hit_upto { s with PC := (s.PC + 2) % 65536 } (s.V x % 64) (s.V y % 32) n 0 i
    · rw [inv1.disp_hit i hh]
      exact flip_two_valued _ (h2 i hi)
    · rw [inv1.disp_miss i hh]
      exact h2 i hi
  have hset : (∃ cx cy, cx < 64 ∧ cy < 32 ∧ sprite_covers s (s.V x % 64) (s.V y % 32) n cx cy ∧
        lit ((chip8_execute s (0xD000 + x * 256 + y * 16 + n) r1).display (cy * 64 + cx))) →
      (chip8_execute (chip8_execute s (0xD000 + x * 256 + y * 16 + n) r1)
        (0xD000 + x * 256 + y * 16 + n) r2).V 0xF = 1 := by
    rintro ⟨cx, cy, hcx, hcy, hc, hl⟩
    exact inv2.flag_set ⟨cy * 64 + cx, (hagree _).2 ((hcov cx cy hcx).2 hc),
      (lit_iff_full _ (hmid _ (cell_lt cx cy hcx hcy))).1 hl⟩
  have hclear : ¬ (∃ cx cy, cx < 64 ∧ cy < 32 ∧
        sprite_covers s (s.V x % 64) (s.V y % 32) n cx cy ∧
        lit ((chip8_execute s (0xD000 + x * 256 + y * 16 + n) r1).display (cy * 64 + cx))) →
      (chip8_execute (chip8_execute s (0xD000 + x * 256 + y * 16 + n) r1)
        (0xD000 + x * 256 + y * 16 + n) r2).V 0xF = 0 := by
    intro hnone
    apply inv2.flag_clear
    rintro ⟨idx, hh, hfull⟩
    obtain ⟨cx, cy, hcx, hcy, rfl⟩ := hit_upto_cell _ _ _ _ _ _ hh
    exact hnone ⟨cx, cy, hcx, hcy, (hcov cx cy hcx).1 ((hagree _).1 hh),
      (lit_iff_full _ (hmid _ (cell_lt cx cy hcx hcy))).2 hfull⟩
  refine ⟨?_, ⟨?_, hset⟩, hclear⟩
  · funext idx
    by_cases hh : hit_upto { s with PC := (s.PC + 2) % 65536 } (s.V x % 64) (s.V y % 32) n 0 idx
    · have e2 := inv2.disp_hit idx ((hagree idx).2 hh)
      have e1 := inv1.disp_hit idx hh
      exact e2.trans (e1 ▸ Nat.xor_cancel_right _ _)
    · have e2 := inv2.disp_miss idx (fun h3 => hh ((hagree idx).1 h3))
      have e1 := inv1.disp_miss idx hh
      exact e2.trans e1
  · intro h1
    by_contra hnone
    have h0 := hclear hnone
    omega

/-- Witness of C7: glyph 0 drawn twice at `(V0, V1) = (0, 0)` on the fresh
machine; the second draw meets the cells lit by the first. -/
theorem double_draw_restores_witness :
    (∀ i, i < DISPLAY_SIZE → glyph_state.display i = 0 ∨ glyph_state.display i = 0xFFFFFFFF) ∧
    glyph_state.I + 5 ≤ MEMORY_SIZE ∧
    (chip8_execute (chip8_execute glyph_state 0xD015 0) 0xD015 0).display
      = glyph_state.display ∧
    (chip8_execute glyph_state 0xD015 0).display 0 = 0xFFFFFFFF ∧
    (chip8_execute (chip8_execute glyph_state 0xD015 0) 0xD015 0).V 0xF = 1 := by
  have h2 : ∀ i, i < DISPLAY_SIZE →
      glyph_state.display i = 0 ∨ glyph_state.display i = 0xFFFFFFFF :=
    fun i _ => Or.inl (glyph_state_display i)
  have hI : glyph_state.I + 5 ≤ MEMORY_SIZE := by decide
  have h := double_draw_restores glyph_state 0 1 5 0 0 (by decide) (by decide) (by decide)
    (by decide) (by decide) h2 hI
  rw [show (0xD000 + 0 * 256 + 1 * 16 + 5 : Nat) = 0xD015 from rfl,
    show glyph_state.V 0 % 64 = 0 from by decide,
    show glyph_state.V 1 % 32 = 0 from by decide] at h
  have c1 : sprite_covers glyph_state 0 0 5 0 0 := by decide
  have l1 : lit ((chip8_execute glyph_state 0xD015 0).display (0 * 64 + 0)) := by decide
  exact ⟨h2, hI, h.1, by decide, h.2.1.2 ⟨0, 0, by decide, by decide, c1, l1⟩⟩

/-- C8: `00E0` followed by `DXYN` leaves a cell `(cx, cy)` lit exactly when
some set sprite bit `(row, col)`, `row < N`, `col < 8`, bit `7 - col` of
`memory[I + row]`, has `((VX mod 64 + col) mod 64, (VY mod 32 + row) mod 32)
= (cx, cy)`; it leaves `VF = 0` and `draw_flag = true`. -/
theorem clear_then_draw (s : Chip8) (x y n r1 r2 : Nat) (hx : x < 16) (hy : y < 16)
    (hn : n < 16) (_hI : s.I + n ≤ MEMORY_SIZE) :
    (∀ cx cy, cx < 64 → cy < 32 →
      (lit ((chip8_execute (chip8_execute s 0x00E0 r1)
          (0xD000 + x * 256 + y * 16 + n) r2).display (cy * 64 + cx))
        ↔ sprite_covers s (s.V x % 64) (s.V y % 32) n cx cy)) ∧
    (chip8_execute (chip8_execute s 0x00E0 r1) (0xD000 + x * 256 + y * 16 + n) r2).V 0xF = 0 ∧
    (chip8_execute (chip8_execute s 0x00E0 r1)
      (0xD000 + x * 256 + y * 16 + n) r2).draw_flag = true := by
  have inv := exec_DXYN_inv (chip8_execute s 0x00E0 r1) x y n r2 hx hy hn
  have hflag := exec_DXYN_draw_flag (chip8_execute s 0x00E0 r1) x y n r2 hx hy hn
  rw [exec_00E0_eq] at inv hflag ⊢
  have hblank : ∀ i, i < DISPLAY_SIZE →
      (fun i => if i < DISPLAY_SIZE then 0 else s.display i) i = 0 := by
    intro i hi
    simp only [hi, if_true]
  refine ⟨?_, ?_, hflag⟩
  · intro cx cy hcx hcy
    have hcov := hit_upto_covers
      { ({ s with
            display := fun i => if i < DISPLAY_SIZE then 0 else s.display i
            draw_flag := true
            PC := (s.PC + 2) % 65536 } : Chip8) with
        PC := ((s.PC + 2) % 65536 + 2) % 65536 }
      (s.V x % 64) (s.V y % 32) n cx cy hcx
    have hcell := hblank (cy * 64 + cx) (cell_lt cx cy hcx hcy)
    by_cases hc : sprite_covers s (s.V x % 64) (s.V y % 32) n cx cy
    · have e := inv.disp_hit _ (hcov.2 hc)
      rw [e]
      refine ⟨fun _ => hc, fun _ => ?_⟩
      show lit ((fun i => if i < DISPLAY_SIZE then 0 else s.display i) (cy * 64 + cx)
        ^^^ 0xFFFFFFFF)
      rw [hcell]
      decide
    · have e := inv.disp_miss _ (fun hh => hc (hcov.1 hh))
      rw [e]
      refine ⟨fun hl => ?_, fun hh => absurd hh hc⟩
      exact absurd hcell hl
  · apply inv.flag_clear
    rintro ⟨idx, hh, hfull⟩
    obtain ⟨cx, cy, hcx, hcy, rfl⟩ := hit_upto_cell _ _ _ _ _ _ hh
    have hcell := hblank (cy * 64 + cx) (cell_lt cx cy hcx hcy)
    have h0 : (0 : Nat) = 0xFFFFFFFF := hcell.symm.trans hfull
    exact absurd h0 (by decide)

/-- Witness of C8: on the fresh machine with `I = 0x50` and `V0 = 0`, `00E0`
then `D005` shows the rows `F0 90 90 90 F0` of glyph 0 in rows 0..4, columns
0..7, with `VF = 0` and `draw_flag` set; `D005` alone on the fresh, blank
display does the same. -/
theorem clear_then_draw_witness :
    glyph_state.I + 5 ≤ MEMORY_SIZE ∧ glyph_state.I = 0x50 ∧ glyph_state.V 0 = 0 ∧
    (∀ cy, cy < 5 → ∀ cx, cx < 8 →
      (lit ((chip8_execute (chip8_execute glyph_state 0x00E0 0) 0xD005 0).display (cy * 64 + cx))
        ↔ ([0xF0, 0x90, 0x90, 0x90, 0xF0].getD cy 0).testBit (7 - cx) = true)) ∧
    (chip8_execute (chip8_execute glyph_state 0x00E0 0) 0xD005 0).V 0xF = 0 ∧
    (chip8_execute (chip8_execute glyph_state 0x00E0 0) 0xD005 0).draw_flag = true ∧
    (∀ cy, cy < 5 → ∀ cx, cx < 8 →
      (lit ((chip8_execute glyph_state 0xD005 0).display (cy * 64 + cx))
        ↔ ([0xF0, 0x90, 0x90, 0x90, 0xF0].getD cy 0).testBit (7 - cx) = true)) ∧
    (chip8_execute glyph_state 0xD005 0).V 0xF = 0 ∧
    (chip8_execute glyph_state 0xD005 0).draw_flag = true := by
  have hI : glyph_state.I + 5 ≤ MEMORY_SIZE := by decide
  have h := clear_then_draw glyph_state 0 0 5 0 0 (by decide) (by decide) (by decide) hI
  rw [show (0xD000 + 0 * 256 + 0 * 16 + 5 : Nat) = 0xD005 from rfl,
    show glyph_state.V 0 % 64 = 0 from by decide,
    show glyph_state.V 0 % 32 = 0 from by decide] at h
  have hrows : ∀ cy, cy < 5 → ∀ cx, cx < 8 →
      (sprite_covers glyph_state 0 0 5 cx cy
        ↔ ([0xF0, 0x90, 0x90, 0x90, 0xF0].getD cy 0).testBit (7 - cx) = true) := by
    decide
  refine ⟨hI, by decide, by decide, ?_, h.2.1, h.2.2, by decide, by decide, by decide⟩
  intro cy hcy cx hcx
  exact (h.1 cx cy (by omega) (by omega)).trans (hrows cy hcy cx hcx)

/-! ## Fetch -/

theorem wf_set_mem (s : Chip8) (a v : Nat) (hs : WF s) (hv : v < 256) : WF (set_mem s a v) :=
  { hs with memory := upd_lt s.memory a v 256 hs.memory hv }

theorem word_of_bytes (a b : Nat) (ha : a < 256) (hb : b < 256) :
    ((a <<< 8) ||| b) % 65536 = a * 256 + b := by
  have h : a <<< 8 ||| b = 2 ^ 8 * a + b := by
    rw [Nat.shiftLeft_eq, Nat.mul_comm]
    exact (Nat.mul_add_lt_is_or (show b < 2 ^ 8 from hb) a).symm
  rw [h]
  omega

/-- C9: with `PC + 1 < 4096`, `chip8_fetch_opcode` returns the 16-bit word
`memory[PC] * 256 + memory[PC + 1]`.  The embedded function maps a state to a
word and nothing else: the C function only reads through its pointer, so no
part of the state changes. -/
theorem fetch_big_endian (s : Chip8) (hs : WF s) (_hpc : s.PC + 1 < MEMORY_SIZE) :
    chip8_fetch_opcode s = s.memory s.PC * 256 + s.memory (s.PC + 1) ∧
    chip8_fetch_opcode s < 65536 := by
  unfold chip8_fetch_opcode
  rw [word_of_bytes _ _ (hs.memory _) (hs.memory _)]
  have h1 := hs.memory s.PC
  have h2 := hs.memory (s.PC + 1)
  exact ⟨rfl, by omega⟩

/-- Witness of C9: `memory[0x200] = 0x6A`, `memory[0x201] = 0x02`, `PC = 0x200`
fetches `0x6A02`; executing that word leaves `VA = 2` and `PC = 0x202`. -/
theorem fetch_big_endian_witness :
    WF program_state ∧ program_state.PC + 1 < MEMORY_SIZE ∧
    program_state.memory 0x200 = 0x6A ∧ program_state.memory 0x201 = 0x02 ∧
    program_state.PC = 0x200 ∧
    chip8_fetch_opcode program_state = 0x6A02 ∧
    (chip8_execute program_state (chip8_fetch_opcode program_state) 0).V 0xA = 2 ∧
    (chip8_execute program_state (chip8_fetch_opcode program_state) 0).PC = 0x202 := by
  have w : WF program_state :=
    wf_set_mem _ _ _ (wf_set_mem _ _ _ (wf_init _) (by decide)) (by decide)
  have hpc : program_state.PC + 1 < MEMORY_SIZE := by decide
  have h := fetch_big_endian program_state w hpc
  exact ⟨w, hpc, by decide, by decide, by decide, h.1.trans (by decide), by decide, by decide⟩

theorem exec_in_bounds_00EE (s : Chip8) :
    exec_in_bounds s 0x00EE ↔ u8 ((s.SP : Int) - 1) < STACK_SIZE := by
  have hf : 0x00EE &&& 0xF000 = 0x0000 := by decide
  have hk : 0x00EE &&& 0x00FF = 0x00EE := by decide
  simp only [exec_in_bounds, hf, hk, reduceIte]

theorem exec_in_bounds_2NNN (s : Chip8) (nnn : Nat) (hn : nnn < 4096) :
    exec_in_bounds s (0x2000 + nnn) ↔ s.SP < STACK_SIZE := by
  have hf : (0x2000 + nnn) &&& 0xF000 = 0x2000 := by rw [dec_family]; omega
  simp only [exec_in_bounds, hf, Nat.reduceEqDiff, reduceIte]

/-- C12: `chip8_update_timers` leaves `delay_timer = d - 1` if `d > 0` and `0`
if `d = 0`, likewise `sound_timer`, each from its own old value, and changes no
other field. -/
theorem update_timers_decrements (s : Chip8) (hs : WF s) :
    (chip8_update_timers s).delay_timer
      = (if s.delay_timer > 0 then s.delay_timer - 1 else 0) ∧
    (chip8_update_timers s).sound_timer
      = (if s.sound_timer > 0 then s.sound_timer - 1 else 0) ∧
    chip8_update_timers s =
      { s with
        delay_timer := (chip8_update_timers s).delay_timer
        sound_timer := (chip8_update_timers s).sound_timer } := by
  have hd := hs.delay_timer
  have hsd := hs.sound_timer
  have step : ∀ d : Nat, 0 < d → d < 256 → u8 ((d : Int) - 1) = d - 1 := by
    intro d h0 h1
    unfold u8
    omega
  unfold chip8_update_timers
  by_cases h1 : s.delay_timer > 0 <;> by_cases h2 : s.sound_timer > 0
  · simp only [h1, h2, if_true, step _ h1 hd, step _ h2 hsd]
    exact ⟨trivial, trivial, trivial⟩
  · simp only [h1, h2, if_true, if_false, step _ h1 hd]
    refine ⟨trivial, by omega, ?_⟩
    cases s
    simp only [Chip8.mk.injEq, true_and, and_true]
  · simp only [h1, h2, if_true, if_false, step _ h2 hsd]
    refine ⟨by omega, trivial, ?_⟩
    cases s
    simp only [Chip8.mk.injEq, true_and, and_true]
  · simp only [h1, h2, if_false]
    refine ⟨by omega, by omega, ?_⟩
    cases s
    simp only [Chip8.mk.injEq, true_and, and_true]

theorem wf_set_delay (s : Chip8) (d : Nat) (hs : WF s) (hd : d < 256) : WF (set_delay s d) :=
  { hs with delay_timer := hd }

/-- Witness of C12: `delay_timer = 3`, `sound_timer = 0` become `2` and `0`;
the sound timer does not wrap to 255. -/
theorem update_timers_decrements_witness :
    WF timer_state ∧ timer_state.delay_timer = 3 ∧ timer_state.sound_timer = 0 ∧
    (chip8_update_timers timer_state).delay_timer = 2 ∧
    (chip8_update_timers timer_state).sound_timer = 0 := by
  have w : WF timer_state := wf_set_delay _ _ (wf_init _) (by decide)
  have h := update_timers_decrements timer_state w
  exact ⟨w, by decide, by decide, h.1.trans (by decide), h.2.1.trans (by decide)⟩

/-! ## Load and add immediate -/

theorem exec_6XNN_eq (s : Chip8) (x kk rnd : Nat) (hx : x < 16) (hk : kk < 256) :
    chip8_execute s (0x6000 + x * 256 + kk) rnd =
      { s with V := upd s.V x kk, PC := (s.PC + 2) % 65536 } := by
  have hf : (0x6000 + x * 256 + kk) &&& 0xF000 = 0x6000 := by rw [dec_family]; omega
  have hx1 : ((0x6000 + x * 256 + kk) &&& 0x0F00) >>> 8 = x := by rw [dec_x]; omega
  have hk1 : (0x6000 + x * 256 + kk) &&& 0x00FF = kk := by rw [and_00FF]; omega
  simp only [chip8_execute, hf, hx1, hk1]
  simp

theorem exec_7XNN_eq (s : Chip8) (x kk rnd : Nat) (hx : x < 16) (hk : kk < 256) :
    chip8_execute s (0x7000 + x * 256 + kk) rnd =
      { s with V := upd s.V x ((s.V x + kk) % 256), PC := (s.PC + 2) % 65536 } := by
  have hf : (0x7000 + x * 256 + kk) &&& 0xF000 = 0x7000 := by rw [dec_family]; omega
  have hx1 : ((0x7000 + x * 256 + kk) &&& 0x0F00) >>> 8 = x := by rw [dec_x]; omega
  have hk1 : (0x7000 + x * 256 + kk) &&& 0x00FF = kk := by rw [and_00FF]; omega
  simp only [chip8_execute, hf, hx1, hk1]
  simp

/-- C13: for every register index `x` (also `0xF`) and bytes `a`, `b`,
executing `6Xaa` and then `7Xbb` leaves `VX = (a + b) mod 256`, leaves every
other register as it was, and moves the 16-bit `PC` forward by 4. -/
theorem load_then_add (s : Chip8) (x a b r1 r2 : Nat) (hx : x < 16) (ha : a < 256)
    (hb : b < 256) :
    (chip8_execute (chip8_execute s (0x6000 + x * 256 + a) r1) (0x7000 + x * 256 + b) r2).V x
      = (a + b) % 256 ∧
    (∀ i, i ≠ x →
      (chip8_execute (chip8_execute s (0x6000 + x * 256 + a) r1)
        (0x7000 + x * 256 + b) r2).V i = s.V i) ∧
    (chip8_execute (chip8_execute s (0x6000 + x * 256 + a) r1) (0x7000 + x * 256 + b) r2).PC
      = (s.PC + 4) % 65536 := by
  rw [exec_7XNN_eq _ x b r2 hx hb, exec_6XNN_eq s x a r1 hx ha]
  refine ⟨?_, ?_, ?_⟩
  · show upd (upd s.V x a) x ((upd s.V x a x + b) % 256) x = (a + b) % 256
    rw [upd_same, upd_same]
  · intro i hi
    show upd (upd s.V x a) x ((upd s.V x a x + b) % 256) i = s.V i
    rw [upd_other _ _ _ _ hi, upd_other _ _ _ _ hi]
  · show ((s.PC + 2) % 65536 + 2) % 65536 = (s.PC + 4) % 65536
    omega

/-- Witness of C13 with `x = 0xF`, `a = 0xFF`, `b = 0x02` on the fresh machine:
`VF = 1`, `V0` untouched, `PC = 0x204`. -/
theorem load_then_add_witness :
    (chip8_execute (chip8_execute fresh 0x6FFF 0) 0x7F02 0).V 0xF = 1 ∧
    (chip8_execute (chip8_execute fresh 0x6FFF 0) 0x7F02 0).V 0 = fresh.V 0 ∧
    (chip8_execute (chip8_execute fresh 0x6FFF 0) 0x7F02 0).PC = 0x204 := by
  have h := load_then_add fresh 0xF 0xFF 0x02 0 0 (by decide) (by decide) (by decide)
  exact ⟨h.1.trans (by decide), (h.2.1 0 (by decide)).trans (by decide),
    h.2.2.trans (by decide)⟩

/-! ## Glyph addressing and the decimal store -/

theorem exec_FX29_eq (s : Chip8) (x rnd : Nat) (hx : x < 16) :
    chip8_execute s (0xF029 + x * 256) rnd =
      { s with I := (FONT_START + s.V x * 5) % 65536, PC := (s.PC + 2) % 65536 } := by
  have hf : (0xF029 + x * 256) &&& 0xF000 = 0xF000 := by rw [dec_family]; omega
  have hx1 : ((0xF029 + x * 256) &&& 0x0F00) >>> 8 = x := by rw [dec_x]; omega
  have hk1 : (0xF029 + x * 256) &&& 0x00FF = 0x29 := by rw [and_00FF]; omega
  simp only [chip8_execute, hf, hx1, hk1]
  simp

theorem exec_FX33_eq (s : Chip8) (x rnd : Nat) (hx : x < 16) :
    chip8_execute s (0xF033 + x * 256) rnd =
      { s with
        memory := upd (upd (upd s.memory s.I (s.V x / 100)) (s.I + 1) (s.V x / 10 % 10))
          (s.I + 2) (s.V x % 10)
        PC := (s.PC + 2) % 65536 } := by
  have hf : (0xF033 + x * 256) &&& 0xF000 = 0xF000 := by rw [dec_family]; omega
  have hx1 : ((0xF033 + x * 256) &&& 0x0F00) >>> 8 = x := by rw [dec_x]; omega
  have hk1 : (0xF033 + x * 256) &&& 0x00FF = 0x33 := by rw [and_00FF]; omega
  simp only [chip8_execute, hf, hx1, hk1]
  simp

theorem init_memory (c : Chip8) (a : Nat) :
    (chip8_init c).memory a =
      (if FONT_START ≤ a ∧ a < FONT_START + 80 then fontset.getD (a - FONT_START) 0 else 0) := by
  rw [init_eq]

/-- C14: in the state produced by `chip8_init` with `VX` then set to a digit
`d < 16`, `FX29` sets `I = 0x50 + 5 * d`, and the five bytes `memory[I..I+4]`
are the entries `5 * d .. 5 * d + 4` of `fontset`, the glyph of `d`. -/
theorem glyph_address (c : Chip8) (x d rnd : Nat) (hx : x < 16) (hd : d < 16) :
    (chip8_execute (set_reg (chip8_init c) x d) (0xF029 + x * 256) rnd).I = 0x50 + 5 * d ∧
    ∀ k, k < 5 →
      (chip8_execute (set_reg (chip8_init c) x d) (0xF029 + x * 256) rnd).memory
          ((chip8_execute (set_reg (chip8_init c) x d) (0xF029 + x * 256) rnd).I + k)
        = fontset.getD (5 * d + k) 0 := by
  have hV : (set_reg (chip8_init c) x d).V x = d := upd_same _ _ _
  have hI : (FONT_START + d * 5) % 65536 = 0x50 + 5 * d := by
    simp only [FONT_START]
    omega
  rw [exec_FX29_eq _ x rnd hx, hV]
  refine ⟨hI, ?_⟩
  intro k hk
  show (chip8_init c).memory ((FONT_START + d * 5) % 65536 + k) = fontset.getD (5 * d + k) 0
  rw [hI, init_memory, if_pos ⟨by simp only [FONT_START]; omega, by simp only [FONT_START]; omega⟩]
  congr 1
  simp only [FONT_START]
  omega

/-- Witness of C14: `d = 0xA` in `V3` gives `I = 0x50 + 50` and the bytes
`F0 90 F0 90 90`. -/
theorem glyph_address_witness :
    (chip8_execute (set_reg (chip8_init zeroed) 3 0xA) 0xF329 0).I = 0x50 + 50 ∧
    (chip8_execute (set_reg (chip8_init zeroed) 3 0xA) 0xF329 0).memory (0x50 + 50) = 0xF0 ∧
    (chip8_execute (set_reg (chip8_init zeroed) 3 0xA) 0xF329 0).memory (0x50 + 51) = 0x90 ∧
    (chip8_execute (set_reg (chip8_init zeroed) 3 0xA) 0xF329 0).memory (0x50 + 52) = 0xF0 ∧
    (chip8_execute (set_reg (chip8_init zeroed) 3 0xA) 0xF329 0).memory (0x50 + 53) = 0x90 ∧
    (chip8_execute (set_reg (chip8_init zeroed) 3 0xA) 0xF329 0).memory (0x50 + 54) = 0x90 := by
  have h := glyph_address zeroed 3 0xA 0 (by decide) (by decide)
  rw [show (0xF029 + 3 * 256 : Nat) = 0xF329 from rfl] at h
  have hI := h.1
  have hm := h.2
  rw [hI] at hm
  exact ⟨hI, (hm 0 (by decide)).trans (by decide), (hm 1 (by decide)).trans (by decide),
    (hm 2 (by decide)).trans (by decide), (hm 3 (by decide)).trans (by decide),
    (hm 4 (by decide)).trans (by decide)⟩

/-- C15: with `I + 2 < 4096` and `v` the value of `VX`, `FX33` leaves
`memory[I]`, `memory[I+1]`, `memory[I+2]` each in `0..9` with
`100 * memory[I] + 10 * memory[I+1] + memory[I+2] = v`, and changes no other
memory byte, no register and not `I`. -/
theorem bcd_store (s : Chip8) (x rnd : Nat) (hs : WF s) (hx : x < 16)
    (_hI : s.I + 2 < MEMORY_SIZE) :
    (chip8_execute s (0xF033 + x * 256) rnd).memory s.I ≤ 9 ∧
    (chip8_execute s (0xF033 + x * 256) rnd).memory (s.I + 1) ≤ 9 ∧
    (chip8_execute s (0xF033 + x * 256) rnd).memory (s.I + 2) ≤ 9 ∧
    100 * (chip8_execute s (0xF033 + x * 256) rnd).memory s.I
      + 10 * (chip8_execute s (0xF033 + x * 256) rnd).memory (s.I + 1)
      + (chip8_execute s (0xF033 + x * 256) rnd).memory (s.I + 2) = s.V x ∧
    (∀ a, a ≠ s.I → a ≠ s.I + 1 → a ≠ s.I + 2 →
      (chip8_execute s (0xF033 + x * 256) rnd).memory a = s.memory a) ∧
    (chip8_execute s (0xF033 + x * 256) rnd).V = s.V ∧
    (chip8_execute s (0xF033 + x * 256) rnd).I = s.I := by
  have hv := hs.V x
  rw [exec_FX33_eq s x rnd hx]
  have m0 : upd (upd (upd s.memory s.I (s.V x / 100)) (s.I + 1) (s.V x / 10 % 10))
      (s.I + 2) (s.V x % 10) s.I = s.V x / 100 := by
    rw [upd_other _ _ _ _ (by omega), upd_other _ _ _ _ (by omega), upd_same]
  have m1 : upd (upd (upd s.memory s.I (s.V x / 100)) (s.I + 1) (s.V x / 10 % 10))
      (s.I + 2) (s.V x % 10) (s.I + 1) = s.V x / 10 % 10 := by
    rw [upd_other _ _ _ _ (by omega), upd_same]
  have m2 : upd (upd (upd s.memory s.I (s.V x / 100)) (s.I + 1) (s.V x / 10 % 10))
      (s.I + 2) (s.V x % 10) (s.I + 2) = s.V x % 10 := upd_same _ _ _
  refine ⟨?_, ?_, ?_, ?_, ?_, rfl, rfl⟩
  · show upd _ _ _ s.I ≤ 9
    rw [m0]
    omega
  · show upd _ _ _ (s.I + 1) ≤ 9
    rw [m1]
    omega
  · show upd _ _ _ (s.I + 2) ≤ 9
    rw [m2]
    omega
  · show 100 * upd _ _ _ s.I + 10 * upd _ _ _ (s.I + 1) + upd _ _ _ (s.I + 2) = s.V x
    rw [m0, m1, m2]
    omega
  · intro a h0 h1 h2
    show upd _ _ _ a = s.memory a
    rw [upd_other _ _ _ _ h2, upd_other _ _ _ _ h1, upd_other _ _ _ _ h0]

theorem wf_set_I (s : Chip8) (a : Nat) (hs : WF s) (ha : a < 65536) : WF (set_I s a) :=
  { hs with I := ha }

/-- Witness of C15: `V3 = 254` at `I = 0x300` stores the digits `2`, `5`, `4`. -/
theorem bcd_store_witness :
    WF bcd_state ∧ bcd_state.I + 2 < MEMORY_SIZE ∧ bcd_state.V 3 = 254 ∧
    (chip8_execute bcd_state 0xF333 0).memory 0x300 = 2 ∧
    (chip8_execute bcd_state 0xF333 0).memory 0x301 = 5 ∧
    (chip8_execute bcd_state 0xF333 0).memory 0x302 = 4 ∧
    100 * (chip8_execute bcd_state 0xF333 0).memory bcd_state.I
      + 10 * (chip8_execute bcd_state 0xF333 0).memory (bcd_state.I + 1)
      + (chip8_execute bcd_state 0xF333 0).memory (bcd_state.I + 2) = bcd_state.V 3 := by
  have w : WF bcd_state :=
    wf_set_I _ _ (wf_set_reg _ _ _ (wf_init _) (by decide)) (by decide)
  have hI : bcd_state.I + 2 < MEMORY_SIZE := by decide
  have h := bcd_store bcd_state 3 0 w (by decide) hI
  rw [show (0xF033 + 3 * 256 : Nat) = 0xF333 from rfl] at h
  exact ⟨w, hI, by decide, by decide, by decide, by decide, h.2.2.2.1⟩

/-! ## The family `0x0000` -/

/-- C16: the inner dispatch of family `0x0000` looks at the low byte only, so
`01E0` and `02EE`, which are `0NNN` calls, run as `00E0` and `00EE`.  On a
machine with cell 0 lit and `draw_flag` clear, `01E0` blanks the cell and sets
`draw_flag`; after the call `2345`, `02EE` pops the stack: `SP` goes from 1 to
0 and `PC` becomes `0x202` instead of `0x345 + 2`. -/
theorem low_byte_dispatch_runs_0NNN :
    lit_state.display 0 = 0xFFFFFFFF ∧ lit_state.draw_flag = false ∧
    (chip8_execute lit_state 0x01E0 0).display 0 = 0 ∧
    (chip8_execute lit_state 0x01E0 0).draw_flag = true ∧
    called_state.SP = 1 ∧ called_state.PC = 0x345 ∧
    (chip8_execute called_state 0x02EE 0).SP = 0 ∧
    (chip8_execute called_state 0x02EE 0).PC = 0x202 ∧
    (called_state.PC + 2) % 65536 = 0x347 := by
  decide

/-! ## The key wait `FX0A` -/

theorem find_range_some (p : Nat → Bool) (n k : Nat) (h : (List.range n).find? p = some k) :
    k < n ∧ p k = true ∧ ∀ j, j < k → p j = false := by
  induction n with
  | zero => simp at h
  | succ m ih =>
    rw [List.range_succ, List.find?_append] at h
    cases hm : (List.range m).find? p with
    | some k2 =>
      rw [hm] at h
      have hk : k2 = k := by simpa using h
      subst hk
      obtain ⟨h1, h2, h3⟩ := ih hm
      exact ⟨by omega, h2, h3⟩
    | none =>
      rw [hm] at h
      have hnone : ∀ j, j < m → p j = false := by
        intro j hj
        have := (List.find?_eq_none.1 hm) j (List.mem_range.2 hj)
        simpa using this
      by_cases hp : p m = true
      · have hk : m = k := by simpa [List.find?_cons, hp] using h
        subst hk
        exact ⟨by omega, hp, hnone⟩
      · have hp2 : p m = false := by simpa using hp
        simp [List.find?_cons, hp2] at h

theorem find_range_none (p : Nat → Bool) (n : Nat) (h : (List.range n).find? p = none) :
    ∀ j, j < n → p j = false := by
  intro j hj
  have := (List.find?_eq_none.1 h) j (List.mem_range.2 hj)
  simpa using this

theorem exec_FX0A_none (s : Chip8) (x rnd : Nat) (hx : x < 16)
    (h : (List.range 16).find? (fun i => decide (s.keypad i ≠ 0)) = none) :
    chip8_execute s (0xF00A + x * 256) rnd = { s with PC := s.PC % 65536 } := by
  have hf : (0xF00A + x * 256) &&& 0xF000 = 0xF000 := by rw [dec_family]; omega
  have hx1 : ((0xF00A + x * 256) &&& 0x0F00) >>> 8 = x := by rw [dec_x]; omega
  have hk1 : (0xF00A + x * 256) &&& 0x00FF = 0x0A := by rw [and_00FF]; omega
  simp only [chip8_execute, hf, hx1, hk1, h]
  simp

theorem exec_FX0A_some (s : Chip8) (x rnd k : Nat) (hx : x < 16)
    (h : (List.range 16).find? (fun i => decide (s.keypad i ≠ 0)) = some k) :
    chip8_execute s (0xF00A + x * 256) rnd =
      { s with V := upd s.V x k, PC := (s.PC + 2) % 65536 } := by
  have hf : (0xF00A + x * 256) &&& 0xF000 = 0xF000 := by rw [dec_family]; omega
  have hx1 : ((0xF00A + x * 256) &&& 0x0F00) >>> 8 = x := by rw [dec_x]; omega
  have hk1 : (0xF00A + x * 256) &&& 0x00FF = 0x0A := by rw [and_00FF]; omega
  simp only [chip8_execute, hf, hx1, hk1, h]
  simp

/-- C18: if none of the 16 keypad entries is non-zero, `FX0A` leaves the whole
state, `PC` included, as it was; if some entry is non-zero, `VX` becomes the
lowest pressed index, the 16-bit `PC` moves forward by 2 and nothing else
changes. -/
theorem wait_for_key (s : Chip8) (x rnd : Nat) (hs : WF s) (hx : x < 16) :
    ((∀ i, i < 16 → s.keypad i = 0) → chip8_execute s (0xF00A + x * 256) rnd = s) ∧
    ((∃ i, i < 16 ∧ s.keypad i ≠ 0) →
      ∃ k, k < 16 ∧ s.keypad k ≠ 0 ∧ (∀ j, j < k → s.keypad j = 0) ∧
        chip8_execute s (0xF00A + x * 256) rnd =
          { s with V := upd s.V x k, PC := (s.PC + 2) % 65536 }) := by
  constructor
  · intro hnone
    have hfind : (List.range 16).find? (fun i => decide (s.keypad i ≠ 0)) = none := by
      rw [List.find?_eq_none]
      intro i hi
      have := hnone i (List.mem_range.1 hi)
      simp [this]
    rw [exec_FX0A_none s x rnd hx hfind, Nat.mod_eq_of_lt hs.PC]
  · rintro ⟨i, hi, hne⟩
    cases hfind : (List.range 16).find? (fun i => decide (s.keypad i ≠ 0)) with
    | none =>
      have := find_range_none _ _ hfind i hi
      simp [hne] at this
    | some k =>
      obtain ⟨h1, h2, h3⟩ := find_range_some _ _ _ hfind
      refine ⟨k, h1, by simpa using h2, ?_, exec_FX0A_some s x rnd k hx hfind⟩
      intro j hj
      have := h3 j hj
      simpa using this

theorem fresh_keypad (i : Nat) : fresh.keypad i = 0 := by
  show (chip8_init zeroed).keypad i = 0
  rw [init_eq]
  rfl

theorem wf_set_key (s : Chip8) (i v : Nat) (hs : WF s) (hv : v < 256) : WF (set_key s i v) :=
  { hs with keypad := upd_lt s.keypad i v 256 hs.keypad hv }

/-- Witness of C18: on the fresh machine no key is pressed and `F30A` changes
nothing; with the keys 5 and 9 pressed it sets `V3 = 5` and `PC = 0x202`. -/
theorem wait_for_key_witness :
    (WF fresh ∧ (∀ i, i < 16 → fresh.keypad i = 0) ∧ chip8_execute fresh 0xF30A 0 = fresh) ∧
    (WF key_state ∧ key_state.keypad 5 ≠ 0 ∧
      (∃ k, k < 16 ∧ key_state.keypad k ≠ 0 ∧ (∀ j, j < k → key_state.keypad j = 0) ∧
        chip8_execute key_state 0xF30A 0 =
          { key_state with V := upd key_state.V 3 k, PC := (key_state.PC + 2) % 65536 }) ∧
      (chip8_execute key_state 0xF30A 0).V 3 = 5 ∧
      (chip8_execute key_state 0xF30A 0).PC = 0x202) := by
  have w1 : WF fresh := wf_init _
  have w2 : WF key_state :=
    wf_set_key _ _ _ (wf_set_key _ _ _ (wf_init _) (by decide)) (by decide)
  have h1 := wait_for_key fresh 3 0 w1 (by decide)
  have h2 := wait_for_key key_state 3 0 w2 (by decide)
  rw [show (0xF00A + 3 * 256 : Nat) = 0xF30A from rfl] at h1 h2
  have hk : key_state.keypad 5 ≠ 0 := by decide
  exact ⟨⟨w1, fun i _ => fresh_keypad i, h1.1 (fun i _ => fresh_keypad i)⟩,
    ⟨w2, hk, h2.2 ⟨5, by decide, hk⟩, by decide, by decide⟩⟩

/-! ## Register store `FX55` and load `FX65` -/

theorem store_loop_eq (k : Nat) (s : Chip8) :
    (List.range k).foldl store_reg s =
      { s with memory := fun a =>
          if s.I ≤ a ∧ a < s.I + k then s.V (a - s.I) else s.memory a } := by
  induction k with
  | zero =>
    have h : ∀ a, ¬ (s.I ≤ a ∧ a < s.I + 0) := by
      intro a h
      omega
    simp only [List.range_zero, List.foldl_nil, h, if_false]
  | succ j ih =>
    rw [List.range_succ, List.foldl_append, ih]
    simp only [List.foldl_cons, List.foldl_nil, store_reg]
    congr 1
    funext a
    unfold upd
    by_cases h1 : a = s.I + j
    · subst h1
      have h3 : s.I ≤ s.I + j ∧ s.I + j < s.I + (j + 1) := ⟨by omega, by omega⟩
      simp only [if_true, h3, and_self, Nat.add_sub_cancel_left]
    · simp only [h1, if_false]
      by_cases h2 : s.I ≤ a ∧ a < s.I + j
      · have h3 : s.I ≤ a ∧ a < s.I + (j + 1) := ⟨h2.1, by omega⟩
        simp only [h2, h3, and_self, if_true]
      · have h3 : ¬ (s.I ≤ a ∧ a < s.I + (j + 1)) := by
          intro h
          exact h2 ⟨h.1, by omega⟩
        simp only [h2, h3, if_false]

theorem load_loop_eq (k : Nat) (s : Chip8) :
    (List.range k).foldl load_reg s =
      { s with V := fun i => if i < k then s.memory (s.I + i) else s.V i } := by
  induction k with
  | zero =>
    simp only [List.range_zero, List.foldl_nil, Nat.not_lt_zero, if_false]
  | succ j ih =>
    rw [List.range_succ, List.foldl_append, ih]
    simp only [List.foldl_cons, List.foldl_nil, load_reg]
    congr 1
    funext i
    unfold upd
    by_cases h1 : i = j
    · subst h1
      simp only [if_true, Nat.lt_succ_self]
    · simp only [h1, if_false]
      by_cases h2 : i < j
      · have h3 : i < j + 1 := by omega
        simp only [h2, h3, if_true]
      · have h3 : ¬ i < j + 1 := by omega
        simp only [h2, h3, if_false]

theorem exec_FX55_eq (s : Chip8) (x rnd : Nat) (hx : x < 16) :
    chip8_execute s (0xF055 + x * 256) rnd =
      { s with
        memory := fun a => if s.I ≤ a ∧ a < s.I + (x + 1) then s.V (a - s.I) else s.memory a
        PC := (s.PC + 2) % 65536 } := by
  have hf : (0xF055 + x * 256) &&& 0xF000 = 0xF000 := by rw [dec_family]; omega
  have hx1 : ((0xF055 + x * 256) &&& 0x0F00) >>> 8 = x := by rw [dec_x]; omega
  have hk1 : (0xF055 + x * 256) &&& 0x00FF = 0x55 := by rw [and_00FF]; omega
  simp only [chip8_execute, hf, hx1, hk1, store_loop_eq]
  simp

theorem exec_FX65_eq (s : Chip8) (x rnd : Nat) (hx : x < 16) :
    chip8_execute s (0xF065 + x * 256) rnd =
      { s with
        V := fun i => if i < x + 1 then s.memory (s.I + i) else s.V i
        PC := (s.PC + 2) % 65536 } := by
  have hf : (0xF065 + x * 256) &&& 0xF000 = 0xF000 := by rw [dec_family]; omega
  have hx1 : ((0xF065 + x * 256) &&& 0x0F00) >>> 8 = x := by rw [dec_x]; omega
  have hk1 : (0xF065 + x * 256) &&& 0x00FF = 0x65 := by rw [and_00FF]; omega
  simp only [chip8_execute, hf, hx1, hk1, load_loop_eq]
  simp

/-- C19: with `I + x < 4096`, `FX55` makes `memory[I + i] = Vi` for every
`i ≤ x` and changes no other memory byte, no register and not `I`; `FX65`
makes `Vi = memory[I + i]` for every `i ≤ x` and changes no register above
`x`, no memory and not `I`; `FX55` followed by `FX65` leaves every register
equal to its value before the `FX55`. -/
theorem store_load_registers (s : Chip8) (x r1 r2 : Nat) (hx : x < 16)
    (_hI : s.I + x < MEMORY_SIZE) :
    ((∀ i, i ≤ x → (chip8_execute s (0xF055 + x * 256) r1).memory (s.I + i) = s.V i) ∧
      (∀ a, (a < s.I ∨ s.I + x < a) →
        (chip8_execute s (0xF055 + x * 256) r1).memory a = s.memory a) ∧
      (chip8_execute s (0xF055 + x * 256) r1).V = s.V ∧
      (chip8_execute s (0xF055 + x * 256) r1).I = s.I) ∧
    ((∀ i, i ≤ x → (chip8_execute s (0xF065 + x * 256) r1).V i = s.memory (s.I + i)) ∧
      (∀ i, x < i → (chip8_execute s (0xF065 + x * 256) r1).V i = s.V i) ∧
      (chip8_execute s (0xF065 + x * 256) r1).memory = s.memory ∧
      (chip8_execute s (0xF065 + x * 256) r1).I = s.I) ∧
    (chip8_execute (chip8_execute s (0xF055 + x * 256) r1) (0xF065 + x * 256) r2).V = s.V := by
  have hst : ∀ i, i ≤ x →
      (if s.I ≤ s.I + i ∧ s.I + i < s.I + (x + 1) then s.V (s.I + i - s.I)
        else s.memory (s.I + i)) = s.V i := by
    intro i hi
    rw [if_pos ⟨by omega, by omega⟩, Nat.add_sub_cancel_left]
  refine ⟨⟨?_, ?_, ?_, ?_⟩, ⟨?_, ?_, ?_, ?_⟩, ?_⟩
  · intro i hi
    rw [exec_FX55_eq s x r1 hx]
    exact hst i hi
  · intro a ha
    rw [exec_FX55_eq s x r1 hx]
    show (if s.I ≤ a ∧ a < s.I + (x + 1) then s.V (a - s.I) else s.memory a) = s.memory a
    rw [if_neg (by omega)]
  · rw [exec_FX55_eq s x r1 hx]
  · rw [exec_FX55_eq s x r1 hx]
  · intro i hi
    rw [exec_FX65_eq s x r1 hx]
    show (if i < x + 1 then s.memory (s.I + i) else s.V i) = s.memory (s.I + i)
    rw [if_pos (by omega)]
  · intro i hi
    rw [exec_FX65_eq s x r1 hx]
    show (if i < x + 1 then s.memory (s.I + i) else s.V i) = s.V i
    rw [if_neg (by omega)]
  · rw [exec_FX65_eq s x r1 hx]
  · rw [exec_FX65_eq s x r1 hx]
  · rw [exec_FX65_eq _ x r2 hx, exec_FX55_eq s x r1 hx]
    funext i
    show (if i < x + 1 then
        (if s.I ≤ s.I + i ∧ s.I + i < s.I + (x + 1) then s.V (s.I + i - s.I)
          else s.memory (s.I + i))
      else s.V i) = s.V i
    by_cases hi : i < x + 1
    · rw [if_pos hi]
      exact hst i (by omega)
    · rw [if_neg hi]

/-- Witness of C19: `V0..V3 = 7, 8, 9, 10` stored at `I = 0x300` by `F355` and
read back by `F365`. -/
theorem store_load_registers_witness :
    regs_state.I + 3 < MEMORY_SIZE ∧
    (chip8_execute regs_state 0xF355 0).memory 0x300 = 7 ∧
    (chip8_execute regs_state 0xF355 0).memory 0x303 = 10 ∧
    (chip8_execute regs_state 0xF355 0).memory 0x304 = regs_state.memory 0x304 ∧
    (chip8_execute (chip8_execute regs_state 0xF355 0) 0xF365 0).V = regs_state.V := by
  have hI : regs_state.I + 3 < MEMORY_SIZE := by decide
  have h := store_load_registers regs_state 3 0 0 (by decide) hI
  rw [show (0xF055 + 3 * 256 : Nat) = 0xF355 from rfl,
    show (0xF065 + 3 * 256 : Nat) = 0xF365 from rfl] at h
  exact ⟨hI, by decide, by decide, by decide, h.2.2⟩

/-! ## What `chip8_execute` leaves alone -/

theorem family_cases (op : Nat) : ∃ f, f < 16 ∧ op &&& 0xF000 = f * 4096 :=
  ⟨op / 4096 % 16, Nat.mod_lt _ (by norm_num), dec_family op⟩

theorem exec_memory_frame (s : Chip8) (op rnd : Nat)
    (h : ¬ (op &&& 0xF000 = 0xF000 ∧ (op &&& 0x00FF = 0x33 ∨ op &&& 0x00FF = 0x55))) :
    (chip8_execute s op rnd).memory = s.memory := by
  have hn : op &&& 0x000F ≤ 32 := by
    rw [and_000F]
    omega
  have hdraw := (draw_sprite_inv s ((op &&& 0x0F00) >>> 8) ((op &&& 0x00F0) >>> 4)
    (op &&& 0x000F) hn).memory
  by_cases hF : op &&& 0xF000 = 0xF000
  · have h33 : ¬ (op &&& 0x00FF = 0x33) := fun k => h ⟨hF, Or.inl k⟩
    have h55 : ¬ (op &&& 0x00FF = 0x55) := fun k => h ⟨hF, Or.inr k⟩
    simp only [chip8_execute, hF, Nat.reduceEqDiff, reduceIte, h33, h55, load_loop_eq]
    generalize (List.range 16).find? (fun i => decide (s.keypad i ≠ 0)) = o
    cases o <;> simp only [apply_ite Prod.fst, apply_ite Chip8.memory, ite_self]
  · obtain ⟨f, hf16, hf⟩ := family_cases op
    interval_cases f <;> simp only [Nat.reduceMul] at hf
    all_goals first
      | exact absurd hf hF
      | (simp only [chip8_execute, hf, Nat.reduceEqDiff, reduceIte, apply_ite Prod.fst,
          apply_ite Chip8.memory, ite_self]
         done)
      | (simp only [chip8_execute, hf, Nat.reduceEqDiff, reduceIte]
         exact hdraw)

theorem exec_display_frame (s : Chip8) (op rnd : Nat) (hD : op &&& 0xF000 ≠ 0xD000)
    (hE : ¬ (op &&& 0xF000 = 0x0000 ∧ op &&& 0x00FF = 0xE0)) :
    (chip8_execute s op rnd).display = s.display := by
  by_cases h0 : op &&& 0xF000 = 0x0000
  · have hk : ¬ (op &&& 0x00FF = 0xE0) := fun hk => hE ⟨h0, hk⟩
    simp only [chip8_execute, h0, reduceIte, hk, apply_ite Prod.fst, apply_ite Chip8.display,
      ite_self]
  · by_cases hF : op &&& 0xF000 = 0xF000
    · simp only [chip8_execute, hF, Nat.reduceEqDiff, reduceIte, store_loop_eq, load_loop_eq]
      generalize (List.range 16).find? (fun i => decide (s.keypad i ≠ 0)) = o
      cases o <;> simp only [apply_ite Prod.fst, apply_ite Chip8.display, ite_self]
    · obtain ⟨f, hf16, hf⟩ := family_cases op
      interval_cases f <;> simp only [Nat.reduceMul] at hf
      all_goals first
        | exact absurd hf h0
        | exact absurd hf hD
        | exact absurd hf hF
        | simp only [chip8_execute, hf, Nat.reduceEqDiff, reduceIte, apply_ite Prod.fst,
            apply_ite Chip8.display, ite_self]

theorem exec_F33_memory (s : Chip8) (op rnd : Nat) (hf : op &&& 0xF000 = 0xF000)
    (hk : op &&& 0x00FF = 0x33) :
    (chip8_execute s op rnd).memory =
      upd (upd (upd s.memory s.I (s.V ((op &&& 0x0F00) >>> 8) / 100)) (s.I + 1)
        (s.V ((op &&& 0x0F00) >>> 8) / 10 % 10)) (s.I + 2) (s.V ((op &&& 0x0F00) >>> 8) % 10) := by
  simp only [chip8_execute, hf, hk, Nat.reduceEqDiff, reduceIte]

theorem exec_F55_memory (s : Chip8) (op rnd : Nat) (hf : op &&& 0xF000 = 0xF000)
    (hk : op &&& 0x00FF = 0x55) :
    (chip8_execute s op rnd).memory =
      fun a => if s.I ≤ a ∧ a < s.I + (((op &&& 0x0F00) >>> 8) + 1)
        then s.V (a - s.I) else s.memory a := by
  simp only [chip8_execute, hf, hk, Nat.reduceEqDiff, reduceIte, store_loop_eq]

theorem exec_D_display (s : Chip8) (op rnd : Nat) (hf : op &&& 0xF000 = 0xD000) :
    (chip8_execute s op rnd).display =
      (draw_sprite s ((op &&& 0x0F00) >>> 8) ((op &&& 0x00F0) >>> 4) (op &&& 0x000F)).display := by
  simp only [chip8_execute, hf, Nat.reduceEqDiff, reduceIte]

theorem exec_E0_display (s : Chip8) (op rnd : Nat) (hf : op &&& 0xF000 = 0x0000)
    (hk : op &&& 0x00FF = 0xE0) :
    (chip8_execute s op rnd).display = fun i => if i < DISPLAY_SIZE then 0 else s.display i := by
  simp only [chip8_execute, hf, hk, Nat.reduceEqDiff, reduceIte]

theorem update_timers_frame (s : Chip8) :
    (chip8_update_timers s).memory = s.memory ∧ (chip8_update_timers s).display = s.display := by
  unfold chip8_update_timers
  dsimp only
  constructor <;> split_ifs <;> rfl

/-! ## The glyph table along a run -/

theorem font_intact_init (c : Chip8) : font_intact (chip8_init c) := by
  intro k hk
  rw [init_memory, if_pos ⟨by omega, by omega⟩, Nat.add_sub_cancel_left]

theorem font_intact_step (s : Chip8) (c : Call) (hs : font_intact s)
    (hc : ¬ stores_into_font s c) : font_intact (apply_call s c) := by
  cases c with
  | update_timers =>
    intro k hk
    show (chip8_update_timers s).memory (FONT_START + k) = _
    rw [(update_timers_frame s).1]
    exact hs k hk
  | reset => exact hs
  | execute op rnd =>
    intro k hk
    show (chip8_execute s op rnd).memory (FONT_START + k) = _
    have hc2 : ¬ (op &&& 0xF000 = 0xF000 ∧
        ((op &&& 0x00FF = 0x33 ∧ s.I < FONT_START + 80 ∧ FONT_START ≤ s.I + 2) ∨
          (op &&& 0x00FF = 0x55 ∧ s.I < FONT_START + 80 ∧
            FONT_START ≤ s.I + ((op &&& 0x0F00) >>> 8)))) := hc
    by_cases hw : op &&& 0xF000 = 0xF000 ∧ (op &&& 0x00FF = 0x33 ∨ op &&& 0x00FF = 0x55)
    · obtain ⟨hf, h33 | h55⟩ := hw
      · have hout : ¬ (s.I < FONT_START + 80 ∧ FONT_START ≤ s.I + 2) :=
          fun h => hc2 ⟨hf, Or.inl ⟨h33, h⟩⟩
        rw [exec_F33_memory s op rnd hf h33, upd_other _ _ _ _ (by omega),
          upd_other _ _ _ _ (by omega), upd_other _ _ _ _ (by omega)]
        exact hs k hk
      · have hout : ¬ (s.I < FONT_START + 80 ∧ FONT_START ≤ s.I + ((op &&& 0x0F00) >>> 8)) :=
          fun h => hc2 ⟨hf, Or.inr ⟨h55, h⟩⟩
        rw [exec_F55_memory s op rnd hf h55]
        show (if s.I ≤ FONT_START + k ∧ FONT_START + k < s.I + (((op &&& 0x0F00) >>> 8) + 1)
          then s.V (FONT_START + k - s.I) else s.memory (FONT_START + k)) = _
        rw [if_neg (by omega)]
        exact hs k hk
    · rw [exec_memory_frame s op rnd hw]
      exact hs k hk

theorem font_intact_run (calls : List Call) :
    ∀ s, font_intact s → font_safe s calls → font_intact (run s calls) := by
  induction calls with
  | nil =>
    intro s hs _
    exact hs
  | cons c cs ih =>
    intro s hs hsafe
    exact ih (apply_call s c) (font_intact_step s c hs hsafe.1) hsafe.2

/-- C17, as stated, fails: from the fresh machine `A050` sets `I = 0x050` and
`F055` stores `V0 = 0` there.  Every index of the run is in bounds, and
`memory[0x050]` is `0` afterwards, no longer the first font byte `0xF0`. -/
theorem font_overwritten_by_store :
    run_in_bounds (chip8_init zeroed) [Call.execute 0xA050 0, Call.execute 0xF055 0] ∧
    (run (chip8_init zeroed) [Call.execute 0xA050 0]).I = 0x050 ∧
    (run (chip8_init zeroed) [Call.execute 0xA050 0, Call.execute 0xF055 0]).memory 0x050 = 0 ∧
    fontset.getD 0 0 = 0xF0 ∧
    ¬ font_intact (run (chip8_init zeroed) [Call.execute 0xA050 0, Call.execute 0xF055 0]) := by
  refine ⟨by decide, by decide, by decide, by decide, ?_⟩
  intro h
  exact absurd (h 0 (by decide)) (by decide)

/-- C17, amended: in every state reached from the state produced by
`chip8_init` by a sequence of `chip8_execute`, `chip8_update_timers` and
`chip8_reset` calls whose array accesses are all in bounds and in which no
`FX33` is executed with `memory[I..I+2]` meeting `0x050..0x09F` and no `FX55`
with `memory[I..I+X]` meeting it, the 80 bytes `memory[0x050..0x09F]` equal
`fontset`. -/
theorem font_kept_without_store_into_it (c : Chip8) (calls : List Call)
    (_hb : run_in_bounds (chip8_init c) calls)
    (hsafe : font_safe (chip8_init c) calls) :
    font_intact (run (chip8_init c) calls) :=
  font_intact_run calls (chip8_init c) (font_intact_init c) hsafe

/-- Witness of C17: the run `A300`, `63FE`, `F333`, `F355`, tick, reset, `F029`
is in bounds and stores only at `0x300..0x303`; the glyph table is intact
after it. -/
theorem font_kept_without_store_into_it_witness :
    run_in_bounds (chip8_init zeroed) safe_calls ∧
    font_safe (chip8_init zeroed) safe_calls ∧
    font_intact (run (chip8_init zeroed) safe_calls) ∧
    (run (chip8_init zeroed) safe_calls).memory 0x300 = 0 ∧
    (run (chip8_init zeroed) safe_calls).memory 0x303 = 0xFE ∧
    (run (chip8_init zeroed) safe_calls).memory 0x050 = 0xF0 := by
  have hb : run_in_bounds (chip8_init zeroed) safe_calls := by decide
  have hsafe : font_safe (chip8_init zeroed) safe_calls := by decide
  exact ⟨hb, hsafe, font_kept_without_store_into_it zeroed safe_calls hb hsafe, by decide,
    by decide, by decide⟩

/-! ## The display along a run -/

theorem two_valued_init (c : Chip8) : two_valued (chip8_init c) := by
  intro i _
  rw [init_eq]
  exact Or.inl rfl

theorem two_valued_step (s : Chip8) (c : Call) (hs : two_valued s) :
    two_valued (apply_call s c) := by
  cases c with
  | update_timers =>
    intro i hi
    show (chip8_update_timers s).display i = 0 ∨ (chip8_update_timers s).display i = 0xFFFFFFFF
    rw [(update_timers_frame s).2]
    exact hs i hi
  | reset =>
    intro i hi
    show (if i < DISPLAY_SIZE then 0 else s.display i) = 0 ∨ _
    rw [if_pos hi]
    exact Or.inl rfl
  | execute op rnd =>
    intro i hi
    show (chip8_execute s op rnd).display i = 0 ∨ (chip8_execute s op rnd).display i = 0xFFFFFFFF
    by_cases hD : op &&& 0xF000 = 0xD000
    · have hn : op &&& 0x000F ≤ 32 := by
        rw [and_000F]
        omega
      have inv := draw_sprite_inv s ((op &&& 0x0F00) >>> 8) ((op &&& 0x00F0) >>> 4)
        (op &&& 0x000F) hn
      rw [exec_D_display s op rnd hD]
      by_cases hh : hit_upto s (s.V ((op &&& 0x0F00) >>> 8) % 64)
          (s.V ((op &&& 0x00F0) >>> 4) % 32) (op &&& 0x000F) 0 i
      · rw [inv.disp_hit i hh]
        exact flip_two_valued _ (hs i hi)
      · rw [inv.disp_miss i hh]
        exact hs i hi
    · by_cases hE : op &&& 0xF000 = 0x0000 ∧ op &&& 0x00FF = 0xE0
      · rw [exec_E0_display s op rnd hE.1 hE.2]
        show (if i < DISPLAY_SIZE then 0 else s.display i) = 0 ∨ _
        rw [if_pos hi]
        exact Or.inl rfl
      · rw [exec_display_frame s op rnd hD hE]
        exact hs i hi

theorem two_valued_run (calls : List Call) : ∀ s, two_valued s → two_valued (run s calls) := by
  induction calls with
  | nil =>
    intro s hs
    exact hs
  | cons c cs ih =>
    intro s hs
    exact ih (apply_call s c) (two_valued_step s c hs)

/-- C20: in every state reached from the state produced by `chip8_init` by a
sequence of `chip8_execute`, `chip8_update_timers` and `chip8_reset` calls
whose array accesses are all in bounds, each of the 2048 display cells is `0`
or `0xFFFFFFFF`, so the collision test `cell == 0xFFFFFFFF` of `DXYN` agrees
with the renderer's test that the cell is non-zero. -/
theorem display_cells_two_valued (c : Chip8) (calls : List Call) (i : Nat)
    (_hb : run_in_bounds (chip8_init c) calls) (hi : i < DISPLAY_SIZE) :
    ((run (chip8_init c) calls).display i = 0 ∨
      (run (chip8_init c) calls).display i = 0xFFFFFFFF) ∧
    ((run (chip8_init c) calls).display i = 0xFFFFFFFF ↔
      lit ((run (chip8_init c) calls).display i)) := by
  have h := two_valued_run calls (chip8_init c) (two_valued_init c) i hi
  exact ⟨h, (lit_iff_full _ h).symm⟩

/-- Witness of C20: the run `A050`, `D005`, timer tick from the fresh machine
is in bounds; after it cell 0 is `0xFFFFFFFF` and cell 4 is `0`. -/
theorem display_cells_two_valued_witness :
    run_in_bounds (chip8_init zeroed) draw_calls ∧
    (0 < DISPLAY_SIZE ∧ (run (chip8_init zeroed) draw_calls).display 0 = 0xFFFFFFFF ∧
      lit ((run (chip8_init zeroed) draw_calls).display 0)) ∧
    (4 < DISPLAY_SIZE ∧ (run (chip8_init zeroed) draw_calls).display 4 = 0 ∧
      ¬ lit ((run (chip8_init zeroed) draw_calls).display 4)) := by
  have hb : run_in_bounds (chip8_init zeroed) draw_calls := by decide
  have h0 := display_cells_two_valued zeroed draw_calls 0 hb (by decide)
  have h4 := display_cells_two_valued zeroed draw_calls 4 hb (by decide)
  have e0 : (run (chip8_init zeroed) draw_calls).display 0 = 0xFFFFFFFF := by decide
  have e4 : (run (chip8_init zeroed) draw_calls).display 4 = 0 := by decide
  refine ⟨hb, ⟨by decide, e0, h0.2.1 e0⟩, ⟨by decide, e4, ?_⟩⟩
  intro hl
  have := h4.2.2 hl
  rw [e4] at this
  exact absurd this (by decide)

end C8
